import Mathlib

/-!
Shallow embedding of the narrow-phase collision core of the JoltPhysics
rigid-body engine: the height-field shape (construction validation, the
bottom-up range-block hierarchy, sub-shape-ID encoding, binary state
round-trip, ray casting), the collision dispatcher, the narrow-phase query
facade and the scaled decorator shape.

Definitions are translated from the C++ sources
(`Physics/Collision/Shape/HeightFieldShape.cpp`,
`Physics/Collision/CollisionDispatch.cpp`,
`Physics/Collision/NarrowPhaseQuery.cpp`,
`Physics/Collision/Shape/ScaledShape.cpp`).  A few helper types whose
headers are not part of the source snapshot (streams, `SubShapeID`,
collector plumbing, the ray/box and ray/triangle geometry kernels, and
the `HeightFieldShapeConstants` values) are modelled from the spec; their
doc comments say so explicitly.

Machine floats are modelled as exact rationals; every claim settled over
them only exercises arithmetic that is exact in IEEE single precision for
the inputs involved (multiplication by 1, reciprocal of 1, comparisons,
and small-integer geometry).
-/

namespace Jolt

/-- Modelled from the spec: `HeightFieldShapeConstants::cNoCollisionValue16`
(header not in the snapshot).  The constructor writes this exact literal
(`0xffff`) as the empty-range minimum and compares quantized samples
against the sentinel.  -/
def cNoCollisionValue16 : ℕ := 0xffff

/-- Modelled from the spec: `cMaxHeightValue16`, the largest quantized
16-bit height (one below the sentinel). -/
def cMaxHeightValue16 : ℕ := 0xfffe

/-- Modelled from the spec: `cNoCollisionValue8`, the 8-bit sentinel. -/
def cNoCollisionValue8 : ℕ := 0xff

/-- Modelled from the spec: `cMaxHeightValue8`, the largest 8-bit quantized
height; `GetBlockOffsetAndScale` divides by this value. -/
def cMaxHeightValue8 : ℕ := 0xfe

/-- `cNumBitsXY` of `HeightFieldShapeConstants`: forced to 14 by the
`static_assert` in `DecodingContext` together with the 15-entry
`sGridOffsets` table in HeightFieldShape.cpp. -/
def cNumBitsXY : ℕ := 14

/-- `sGridOffsets` (HeightFieldShape.cpp lines 55-72): start offset of each
level of the range-block hierarchy. -/
def sGridOffsets : List ℕ :=
  [0, 1, 5, 21, 85, 341, 1365, 5461, 21845, 87381, 349525, 1398101,
   5592405, 22369621, 89478485]

/-- Fuel-bounded helper for `ctz`: counts how often the argument can be
halved before an odd number appears. -/
def ctzAux : ℕ → ℕ → ℕ
  | _, 0 => 0
  | n, fuel + 1 => if n % 2 = 1 then 0 else ctzAux (n / 2) fuel + 1

/-- `CountTrailingZeros` as used by the height field (Core/Math helper,
not in the snapshot; it returns 32 on zero and the number of trailing zero
bits otherwise; the constructor only applies it to powers of two). -/
def ctz (n : ℕ) : ℕ := if n = 0 then 32 else ctzAux n n

theorem ctzAux_two_pow : ∀ fuel L : ℕ, 2 ^ L ≤ fuel → ctzAux (2 ^ L) fuel = L := by
  intro fuel
  induction fuel with
  | zero =>
      intro L hL
      have := Nat.pos_pow_of_pos L (show 0 < 2 by omega)
      omega
  | succ fuel ih =>
      intro L hL
      cases L with
      | zero => simp [ctzAux]
      | succ L =>
          have h2 : 2 ^ (L + 1) % 2 = 0 := by
            simp [pow_succ, Nat.mul_mod_left]
          have h3 : 2 ^ (L + 1) / 2 = 2 ^ L := by
            rw [pow_succ]
            omega
          have hP : 0 < 2 ^ L := Nat.pos_pow_of_pos L (by omega)
          have hle : 2 ^ L ≤ fuel := by
            rw [pow_succ] at hL
            omega
          show (if 2 ^ (L + 1) % 2 = 1 then 0 else ctzAux (2 ^ (L + 1) / 2) fuel + 1) = L + 1
          rw [if_neg (by omega), h3, ih L hle]

theorem ctz_two_pow (L : ℕ) : ctz (2 ^ L) = L := by
  have h1 : 2 ^ L ≠ 0 := by positivity
  rw [ctz, if_neg h1]
  exact ctzAux_two_pow (2 ^ L) L (le_refl _)

/-! ## Height-field range-block hierarchy (claim C1)

The constructor (HeightFieldShape.cpp lines 192-281) folds quantized
16-bit samples into per-block min/max ranges, skipping the no-collision
sentinel, then repeatedly combines 2x2 child ranges until a single root
range remains, which it stores as `mMinSample` / `mMaxSample`. -/

/-- The accumulation the constructor uses for block minima: skip the
sentinel, otherwise take the running minimum (lines 220-229). -/
def foldMinNC (l : List ℕ) (init : ℕ) : ℕ :=
  l.foldl (fun acc h => if h = cNoCollisionValue16 then acc else min acc h) init

/-- The accumulation for block maxima (lines 220-229). -/
def foldMaxNC (l : List ℕ) (init : ℕ) : ℕ :=
  l.foldl (fun acc h => if h = cNoCollisionValue16 then acc else max acc h) init

/-- The samples read when building the leaf range block `(x, y)`:
`B` columns and rows, one extra column/row for interior blocks because
their triangles connect to the next block (lines 213-231).  `B` is the
block size, `n` the number of leaf blocks per row, `g x y` the quantized
sample at column `x`, row `y`. -/
def blockSampleList (B n : ℕ) (g : ℕ → ℕ → ℕ) (x y : ℕ) : List ℕ :=
  let maxBx := if x = n - 1 then B else B + 1
  let maxBy := if y = n - 1 then B else B + 1
  (List.range maxBy).flatMap fun j =>
    (List.range maxBx).map fun i => g (x * B + i) (y * B + j)

/-- `Range::mMin` of leaf block `(x, y)` (lines 213-231). -/
def leafRangeMin (B n : ℕ) (g : ℕ → ℕ → ℕ) (x y : ℕ) : ℕ :=
  foldMinNC (blockSampleList B n g x y) 0xffff

/-- `Range::mMax` of leaf block `(x, y)` (lines 213-231). -/
def leafRangeMax (B n : ℕ) (g : ℕ → ℕ → ℕ) (x y : ℕ) : ℕ :=
  foldMaxNC (blockSampleList B n g x y) 0

/-- `Range::mMin` of the node `(x, y)` sitting `d` levels above the leaf
grid: leaf blocks fold the samples, internal nodes take the minimum of
their 2x2 children starting from `0xffff` (lines 233-264). -/
def rangeMinAt (B n : ℕ) (g : ℕ → ℕ → ℕ) : ℕ → ℕ → ℕ → ℕ
  | 0, x, y => leafRangeMin B n g x y
  | d + 1, x, y =>
      min (min (min (min 0xffff
        (rangeMinAt B n g d (2 * x) (2 * y)))
        (rangeMinAt B n g d (2 * x + 1) (2 * y)))
        (rangeMinAt B n g d (2 * x) (2 * y + 1)))
        (rangeMinAt B n g d (2 * x + 1) (2 * y + 1))

/-- `Range::mMax` of the node `(x, y)` sitting `d` levels above the leaf
grid, starting from `0` (lines 233-264). -/
def rangeMaxAt (B n : ℕ) (g : ℕ → ℕ → ℕ) : ℕ → ℕ → ℕ → ℕ
  | 0, x, y => leafRangeMax B n g x y
  | d + 1, x, y =>
      max (max (max (max 0
        (rangeMaxAt B n g d (2 * x) (2 * y)))
        (rangeMaxAt B n g d (2 * x + 1) (2 * y)))
        (rangeMaxAt B n g d (2 * x) (2 * y + 1)))
        (rangeMaxAt B n g d (2 * x + 1) (2 * y + 1))

/-- Row-major list of all quantized samples, i.e. the `quantized_samples`
vector of the constructor. -/
def quantizedList (N : ℕ) (g : ℕ → ℕ → ℕ) : List ℕ :=
  (List.range N).flatMap fun y => (List.range N).map fun x => g x y

/-- Exhaustive scan minimum over all non-sentinel samples, exactly the
constructor's own validation loop (lines 271-281). -/
def scanMin (N : ℕ) (g : ℕ → ℕ → ℕ) : ℕ := foldMinNC (quantizedList N g) 0xffff

/-- Exhaustive scan maximum over all non-sentinel samples (lines 271-281). -/
def scanMax (N : ℕ) (g : ℕ → ℕ → ℕ) : ℕ := foldMaxNC (quantizedList N g) 0

/-- `mMinSample`: the root (`ranges[0][0].mMin`, line 268) of a hierarchy
with `L` levels above the leaf grid of `n = 2 ^ L` blocks per row. -/
def rootRangeMin (B n L : ℕ) (g : ℕ → ℕ → ℕ) : ℕ := rangeMinAt B n g L 0 0

/-- `mMaxSample`: the root (`ranges[0][0].mMax`, line 269). -/
def rootRangeMax (B n L : ℕ) (g : ℕ → ℕ → ℕ) : ℕ := rangeMaxAt B n g L 0 0

theorem foldMinNC_nil (init : ℕ) : foldMinNC [] init = init := rfl

theorem foldMinNC_cons (a : ℕ) (l : List ℕ) (init : ℕ) :
    foldMinNC (a :: l) init =
      foldMinNC l (if a = cNoCollisionValue16 then init else min init a) := rfl

theorem foldMaxNC_nil (init : ℕ) : foldMaxNC [] init = init := rfl

theorem foldMaxNC_cons (a : ℕ) (l : List ℕ) (init : ℕ) :
    foldMaxNC (a :: l) init =
      foldMaxNC l (if a = cNoCollisionValue16 then init else max init a) := rfl

theorem foldMinNC_le_init (l : List ℕ) : ∀ init : ℕ, foldMinNC l init ≤ init := by
  induction l with
  | nil => intro init; exact le_refl _
  | cons a l ih =>
      intro init
      rw [foldMinNC_cons]
      refine le_trans (ih _) ?_
      by_cases hsent : a = cNoCollisionValue16 <;> simp [hsent]

theorem foldMinNC_le_mem (l : List ℕ) (a : ℕ) :
    ∀ init : ℕ, a ∈ l → a ≠ cNoCollisionValue16 → foldMinNC l init ≤ a := by
  induction l with
  | nil => intro init ha; cases ha
  | cons b l ih =>
      intro init ha hs
      rw [foldMinNC_cons]
      rcases List.mem_cons.mp ha with h | h
      · subst h
        refine le_trans (foldMinNC_le_init _ _) ?_
        simp [hs]
      · exact ih _ h hs

theorem le_foldMinNC (l : List ℕ) (c : ℕ) :
    ∀ init : ℕ, c ≤ init → (∀ a ∈ l, a ≠ cNoCollisionValue16 → c ≤ a) →
      c ≤ foldMinNC l init := by
  induction l with
  | nil => intro init hc _; exact hc
  | cons a l ih =>
      intro init hc h
      rw [foldMinNC_cons]
      refine ih _ ?_ (fun b hb hbs => h b (List.mem_cons_of_mem _ hb) hbs)
      by_cases hsent : a = cNoCollisionValue16
      · simpa [hsent] using hc
      · simp only [hsent, if_false]
        exact le_min hc (h a (List.mem_cons_self _ _) hsent)

theorem foldMinNC_eq_init_or_mem (l : List ℕ) :
    ∀ init : ℕ, foldMinNC l init = init ∨
      ∃ a ∈ l, a ≠ cNoCollisionValue16 ∧ foldMinNC l init = a := by
  induction l with
  | nil => intro init; exact Or.inl rfl
  | cons a l ih =>
      intro init
      rw [foldMinNC_cons]
      by_cases hsent : a = cNoCollisionValue16
      · rw [if_pos hsent]
        rcases ih init with h | ⟨b, hb, hbs, hb2⟩
        · exact Or.inl h
        · exact Or.inr ⟨b, List.mem_cons_of_mem _ hb, hbs, hb2⟩
      · rw [if_neg hsent]
        rcases ih (min init a) with h | ⟨b, hb, hbs, hb2⟩
        · rcases le_total init a with hle | hle
          · exact Or.inl (by rw [h, min_eq_left hle])
          · exact Or.inr ⟨a, List.mem_cons_self _ _, hsent,
              by rw [h, min_eq_right hle]⟩
        · exact Or.inr ⟨b, List.mem_cons_of_mem _ hb, hbs, hb2⟩

theorem init_le_foldMaxNC (l : List ℕ) : ∀ init : ℕ, init ≤ foldMaxNC l init := by
  induction l with
  | nil => intro init; exact le_refl _
  | cons a l ih =>
      intro init
      rw [foldMaxNC_cons]
      refine le_trans ?_ (ih _)
      by_cases hsent : a = cNoCollisionValue16 <;> simp [hsent]

theorem mem_le_foldMaxNC (l : List ℕ) (a : ℕ) :
    ∀ init : ℕ, a ∈ l → a ≠ cNoCollisionValue16 → a ≤ foldMaxNC l init := by
  induction l with
  | nil => intro init ha; cases ha
  | cons b l ih =>
      intro init ha hs
      rw [foldMaxNC_cons]
      rcases List.mem_cons.mp ha with h | h
      · subst h
        refine le_trans ?_ (init_le_foldMaxNC _ _)
        simp [hs]
      · exact ih _ h hs

theorem foldMaxNC_le (l : List ℕ) (c : ℕ) :
    ∀ init : ℕ, init ≤ c → (∀ a ∈ l, a ≠ cNoCollisionValue16 → a ≤ c) →
      foldMaxNC l init ≤ c := by
  induction l with
  | nil => intro init hc _; exact hc
  | cons a l ih =>
      intro init hc h
      rw [foldMaxNC_cons]
      refine ih _ ?_ (fun b hb hbs => h b (List.mem_cons_of_mem _ hb) hbs)
      by_cases hsent : a = cNoCollisionValue16
      · simpa [hsent] using hc
      · simp only [hsent, if_false]
        exact max_le hc (h a (List.mem_cons_self _ _) hsent)

theorem foldMaxNC_eq_init_or_mem (l : List ℕ) :
    ∀ init : ℕ, foldMaxNC l init = init ∨
      ∃ a ∈ l, a ≠ cNoCollisionValue16 ∧ foldMaxNC l init = a := by
  induction l with
  | nil => intro init; exact Or.inl rfl
  | cons a l ih =>
      intro init
      rw [foldMaxNC_cons]
      by_cases hsent : a = cNoCollisionValue16
      · rw [if_pos hsent]
        rcases ih init with h | ⟨b, hb, hbs, hb2⟩
        · exact Or.inl h
        · exact Or.inr ⟨b, List.mem_cons_of_mem _ hb, hbs, hb2⟩
      · rw [if_neg hsent]
        rcases ih (max init a) with h | ⟨b, hb, hbs, hb2⟩
        · rcases le_total init a with hle | hle
          · exact Or.inr ⟨a, List.mem_cons_self _ _, hsent,
              by rw [h, max_eq_right hle]⟩
          · exact Or.inl (by rw [h, max_eq_left hle])
        · exact Or.inr ⟨b, List.mem_cons_of_mem _ hb, hbs, hb2⟩

theorem mem_of_blockSampleList (B n : ℕ) (g : ℕ → ℕ → ℕ) (x y a : ℕ)
    (h : a ∈ blockSampleList B n g x y) :
    ∃ i j, i < (if x = n - 1 then B else B + 1) ∧
      j < (if y = n - 1 then B else B + 1) ∧ a = g (x * B + i) (y * B + j) := by
  simp only [blockSampleList, List.mem_flatMap, List.mem_map, List.mem_range] at h
  obtain ⟨j, hj, i, hi, rfl⟩ := h
  exact ⟨i, j, hi, hj, rfl⟩

theorem self_mem_blockSampleList (B n : ℕ) (g : ℕ → ℕ → ℕ) (hB : 1 ≤ B)
    (cx cy : ℕ) :
    g cx cy ∈ blockSampleList B n g (cx / B) (cy / B) := by
  have hBpos : 0 < B := hB
  have h1 : cx / B * B + cx % B = cx := by
    rw [Nat.mul_comm]
    exact Nat.div_add_mod cx B
  have h2 : cy / B * B + cy % B = cy := by
    rw [Nat.mul_comm]
    exact Nat.div_add_mod cy B
  have hxlt : cx % B < (if cx / B = n - 1 then B else B + 1) := by
    have := Nat.mod_lt cx hBpos
    split <;> omega
  have hylt : cy % B < (if cy / B = n - 1 then B else B + 1) := by
    have := Nat.mod_lt cy hBpos
    split <;> omega
  simp only [blockSampleList, List.mem_flatMap, List.mem_map, List.mem_range]
  exact ⟨cy % B, hylt, cx % B, hxlt, by rw [h1, h2]⟩

theorem blockSampleList_coord_lt (B n x i : ℕ) (hB : 1 ≤ B) (hx : x < n)
    (hi : i < if x = n - 1 then B else B + 1) : x * B + i < n * B := by
  have e : (x + 1) * B = x * B + B := by ring
  by_cases hxe : x = n - 1
  · have hxn : x + 1 = n := by omega
    rw [if_pos hxe] at hi
    have : (x + 1) * B = n * B := by rw [hxn]
    omega
  · have hx1 : x + 1 < n := by omega
    rw [if_neg hxe] at hi
    have := Nat.mul_lt_mul_of_lt_of_le hx1 (le_refl B) hB
    omega

theorem mem_of_quantizedList (N : ℕ) (g : ℕ → ℕ → ℕ) (a : ℕ)
    (h : a ∈ quantizedList N g) : ∃ x y, x < N ∧ y < N ∧ a = g x y := by
  simp only [quantizedList, List.mem_flatMap, List.mem_map, List.mem_range] at h
  obtain ⟨y, hy, x, hx, rfl⟩ := h
  exact ⟨x, y, hx, hy, rfl⟩

theorem self_mem_quantizedList (N : ℕ) (g : ℕ → ℕ → ℕ) (x y : ℕ)
    (hx : x < N) (hy : y < N) : g x y ∈ quantizedList N g := by
  simp only [quantizedList, List.mem_flatMap, List.mem_map, List.mem_range]
  exact ⟨y, hy, x, hx, rfl⟩

theorem rangeMinAt_le_top (B n : ℕ) (g : ℕ → ℕ → ℕ) :
    ∀ d x y, rangeMinAt B n g d x y ≤ 0xffff := by
  intro d
  induction d with
  | zero => intro x y; exact foldMinNC_le_init _ _
  | succ d ih =>
      intro x y
      show min (min (min (min 0xffff
        (rangeMinAt B n g d (2 * x) (2 * y)))
        (rangeMinAt B n g d (2 * x + 1) (2 * y)))
        (rangeMinAt B n g d (2 * x) (2 * y + 1)))
        (rangeMinAt B n g d (2 * x + 1) (2 * y + 1)) ≤ 0xffff
      omega

theorem rangeMinAt_le_child (B n : ℕ) (g : ℕ → ℕ → ℕ) (d x y b c : ℕ)
    (hb : b < 2) (hc : c < 2) :
    rangeMinAt B n g (d + 1) x y ≤ rangeMinAt B n g d (2 * x + b) (2 * y + c) := by
  have e : rangeMinAt B n g (d + 1) x y = min (min (min (min 0xffff
      (rangeMinAt B n g d (2 * x) (2 * y)))
      (rangeMinAt B n g d (2 * x + 1) (2 * y)))
      (rangeMinAt B n g d (2 * x) (2 * y + 1)))
      (rangeMinAt B n g d (2 * x + 1) (2 * y + 1)) := rfl
  interval_cases b <;> interval_cases c <;> (try simp only [Nat.add_zero]) <;> omega

theorem rangeMaxAt_child_le (B n : ℕ) (g : ℕ → ℕ → ℕ) (d x y b c : ℕ)
    (hb : b < 2) (hc : c < 2) :
    rangeMaxAt B n g d (2 * x + b) (2 * y + c) ≤ rangeMaxAt B n g (d + 1) x y := by
  have e : rangeMaxAt B n g (d + 1) x y = max (max (max (max 0
      (rangeMaxAt B n g d (2 * x) (2 * y)))
      (rangeMaxAt B n g d (2 * x + 1) (2 * y)))
      (rangeMaxAt B n g d (2 * x) (2 * y + 1)))
      (rangeMaxAt B n g d (2 * x + 1) (2 * y + 1)) := rfl
  interval_cases b <;> interval_cases c <;> (try simp only [Nat.add_zero]) <;> omega

theorem rangeMinAt_le_leafMin (B n : ℕ) (g : ℕ → ℕ → ℕ) :
    ∀ d X Y i j, i < 2 ^ d → j < 2 ^ d →
      rangeMinAt B n g d X Y ≤ leafRangeMin B n g (2 ^ d * X + i) (2 ^ d * Y + j) := by
  intro d
  induction d with
  | zero =>
      intro X Y i j hi hj
      simp only [pow_zero] at hi hj ⊢
      have hi0 : i = 0 := by omega
      have hj0 : j = 0 := by omega
      subst hi0; subst hj0
      simp only [one_mul, Nat.add_zero]
      exact le_of_eq rfl
  | succ d ih =>
      intro X Y i j hi hj
      have hP : 0 < 2 ^ d := Nat.pos_pow_of_pos d (by omega)
      have hps : (2 : ℕ) ^ (d + 1) = 2 ^ d * 2 := pow_succ 2 d
      have hb : i / 2 ^ d < 2 := by
        rw [Nat.div_lt_iff_lt_mul hP]
        omega
      have hc : j / 2 ^ d < 2 := by
        rw [Nat.div_lt_iff_lt_mul hP]
        omega
      have hkeyi : 2 ^ (d + 1) * X + i = 2 ^ d * (2 * X + i / 2 ^ d) + i % 2 ^ d := by
        calc 2 ^ (d + 1) * X + i
            = 2 ^ d * 2 * X + (2 ^ d * (i / 2 ^ d) + i % 2 ^ d) := by
              rw [Nat.div_add_mod, pow_succ]
          _ = 2 ^ d * (2 * X + i / 2 ^ d) + i % 2 ^ d := by ring
      have hkeyj : 2 ^ (d + 1) * Y + j = 2 ^ d * (2 * Y + j / 2 ^ d) + j % 2 ^ d := by
        calc 2 ^ (d + 1) * Y + j
            = 2 ^ d * 2 * Y + (2 ^ d * (j / 2 ^ d) + j % 2 ^ d) := by
              rw [Nat.div_add_mod, pow_succ]
          _ = 2 ^ d * (2 * Y + j / 2 ^ d) + j % 2 ^ d := by ring
      rw [hkeyi, hkeyj]
      exact le_trans (rangeMinAt_le_child B n g d X Y _ _ hb hc)
        (ih (2 * X + i / 2 ^ d) (2 * Y + j / 2 ^ d) (i % 2 ^ d) (j % 2 ^ d)
          (Nat.mod_lt _ hP) (Nat.mod_lt _ hP))

theorem leafMax_le_rangeMaxAt (B n : ℕ) (g : ℕ → ℕ → ℕ) :
    ∀ d X Y i j, i < 2 ^ d → j < 2 ^ d →
      leafRangeMax B n g (2 ^ d * X + i) (2 ^ d * Y + j) ≤ rangeMaxAt B n g d X Y := by
  intro d
  induction d with
  | zero =>
      intro X Y i j hi hj
      simp only [pow_zero] at hi hj ⊢
      have hi0 : i = 0 := by omega
      have hj0 : j = 0 := by omega
      subst hi0; subst hj0
      simp only [one_mul, Nat.add_zero]
      exact le_of_eq rfl
  | succ d ih =>
      intro X Y i j hi hj
      have hP : 0 < 2 ^ d := Nat.pos_pow_of_pos d (by omega)
      have hps : (2 : ℕ) ^ (d + 1) = 2 ^ d * 2 := pow_succ 2 d
      have hb : i / 2 ^ d < 2 := by
        rw [Nat.div_lt_iff_lt_mul hP]
        omega
      have hc : j / 2 ^ d < 2 := by
        rw [Nat.div_lt_iff_lt_mul hP]
        omega
      have hkeyi : 2 ^ (d + 1) * X + i = 2 ^ d * (2 * X + i / 2 ^ d) + i % 2 ^ d := by
        calc 2 ^ (d + 1) * X + i
            = 2 ^ d * 2 * X + (2 ^ d * (i / 2 ^ d) + i % 2 ^ d) := by
              rw [Nat.div_add_mod, pow_succ]
          _ = 2 ^ d * (2 * X + i / 2 ^ d) + i % 2 ^ d := by ring
      have hkeyj : 2 ^ (d + 1) * Y + j = 2 ^ d * (2 * Y + j / 2 ^ d) + j % 2 ^ d := by
        calc 2 ^ (d + 1) * Y + j
            = 2 ^ d * 2 * Y + (2 ^ d * (j / 2 ^ d) + j % 2 ^ d) := by
              rw [Nat.div_add_mod, pow_succ]
          _ = 2 ^ d * (2 * Y + j / 2 ^ d) + j % 2 ^ d := by ring
      rw [hkeyi, hkeyj]
      exact le_trans
        (ih (2 * X + i / 2 ^ d) (2 * Y + j / 2 ^ d) (i % 2 ^ d) (j % 2 ^ d)
          (Nat.mod_lt _ hP) (Nat.mod_lt _ hP))
        (rangeMaxAt_child_le B n g d X Y _ _ hb hc)

theorem scanMin_le_rangeMinAt (B n N : ℕ) (g : ℕ → ℕ → ℕ) (hB : 1 ≤ B)
    (hN : N = n * B) :
    ∀ d x y, (x + 1) * 2 ^ d ≤ n → (y + 1) * 2 ^ d ≤ n →
      scanMin N g ≤ rangeMinAt B n g d x y := by
  intro d
  induction d with
  | zero =>
      intro x y hx hy
      simp only [pow_zero, Nat.mul_one] at hx hy
      show scanMin N g ≤ leafRangeMin B n g x y
      refine le_foldMinNC _ _ _ (foldMinNC_le_init _ _) ?_
      intro a ha hs
      obtain ⟨i, j, hi, hj, rfl⟩ := mem_of_blockSampleList B n g x y a ha
      have hcx : x * B + i < n * B :=
        blockSampleList_coord_lt B n x i hB (by omega) hi
      have hcy : y * B + j < n * B :=
        blockSampleList_coord_lt B n y j hB (by omega) hj
      exact foldMinNC_le_mem _ _ _
        (self_mem_quantizedList N g _ _ (by omega) (by omega)) hs
  | succ d ih =>
      intro x y hx hy
      have e1 : (2 * x + 1 + 1) * 2 ^ d = (x + 1) * 2 ^ (d + 1) := by ring
      have e2 : (2 * y + 1 + 1) * 2 ^ d = (y + 1) * 2 ^ (d + 1) := by ring
      have e3 : (2 * x + 1) * 2 ^ d ≤ (2 * x + 1 + 1) * 2 ^ d :=
        Nat.mul_le_mul_right _ (by omega)
      have e4 : (2 * y + 1) * 2 ^ d ≤ (2 * y + 1 + 1) * 2 ^ d :=
        Nat.mul_le_mul_right _ (by omega)
      have h00 := ih (2 * x) (2 * y) (by omega) (by omega)
      have h10 := ih (2 * x + 1) (2 * y) (by omega) (by omega)
      have h01 := ih (2 * x) (2 * y + 1) (by omega) (by omega)
      have h11 := ih (2 * x + 1) (2 * y + 1) (by omega) (by omega)
      have htop : scanMin N g ≤ 0xffff := foldMinNC_le_init _ _
      show scanMin N g ≤ min (min (min (min 0xffff
        (rangeMinAt B n g d (2 * x) (2 * y)))
        (rangeMinAt B n g d (2 * x + 1) (2 * y)))
        (rangeMinAt B n g d (2 * x) (2 * y + 1)))
        (rangeMinAt B n g d (2 * x + 1) (2 * y + 1))
      omega

theorem rangeMaxAt_le_scanMax (B n N : ℕ) (g : ℕ → ℕ → ℕ) (hB : 1 ≤ B)
    (hN : N = n * B) :
    ∀ d x y, (x + 1) * 2 ^ d ≤ n → (y + 1) * 2 ^ d ≤ n →
      rangeMaxAt B n g d x y ≤ scanMax N g := by
  intro d
  induction d with
  | zero =>
      intro x y hx hy
      simp only [pow_zero, Nat.mul_one] at hx hy
      show leafRangeMax B n g x y ≤ scanMax N g
      refine foldMaxNC_le _ _ _ (by omega) ?_
      intro a ha hs
      obtain ⟨i, j, hi, hj, rfl⟩ := mem_of_blockSampleList B n g x y a ha
      have hcx : x * B + i < n * B :=
        blockSampleList_coord_lt B n x i hB (by omega) hi
      have hcy : y * B + j < n * B :=
        blockSampleList_coord_lt B n y j hB (by omega) hj
      exact mem_le_foldMaxNC _ _ _
        (self_mem_quantizedList N g _ _ (by omega) (by omega)) hs
  | succ d ih =>
      intro x y hx hy
      have e1 : (2 * x + 1 + 1) * 2 ^ d = (x + 1) * 2 ^ (d + 1) := by ring
      have e2 : (2 * y + 1 + 1) * 2 ^ d = (y + 1) * 2 ^ (d + 1) := by ring
      have e3 : (2 * x + 1) * 2 ^ d ≤ (2 * x + 1 + 1) * 2 ^ d :=
        Nat.mul_le_mul_right _ (by omega)
      have e4 : (2 * y + 1) * 2 ^ d ≤ (2 * y + 1 + 1) * 2 ^ d :=
        Nat.mul_le_mul_right _ (by omega)
      have h00 := ih (2 * x) (2 * y) (by omega) (by omega)
      have h10 := ih (2 * x + 1) (2 * y) (by omega) (by omega)
      have h01 := ih (2 * x) (2 * y + 1) (by omega) (by omega)
      have h11 := ih (2 * x + 1) (2 * y + 1) (by omega) (by omega)
      show max (max (max (max 0
        (rangeMaxAt B n g d (2 * x) (2 * y)))
        (rangeMaxAt B n g d (2 * x + 1) (2 * y)))
        (rangeMaxAt B n g d (2 * x) (2 * y + 1)))
        (rangeMaxAt B n g d (2 * x + 1) (2 * y + 1)) ≤ scanMax N g
      omega

theorem foldMinNC_all_sentinel (l : List ℕ) (init : ℕ)
    (h : ∀ a ∈ l, a = cNoCollisionValue16) : foldMinNC l init = init := by
  rcases foldMinNC_eq_init_or_mem l init with he | ⟨a, ha, has, _⟩
  · exact he
  · exact absurd (h a ha) has

theorem foldMaxNC_all_sentinel (l : List ℕ) (init : ℕ)
    (h : ∀ a ∈ l, a = cNoCollisionValue16) : foldMaxNC l init = init := by
  rcases foldMaxNC_eq_init_or_mem l init with he | ⟨a, ha, has, _⟩
  · exact he
  · exact absurd (h a ha) has

/-- **C1.** For every successfully constructed height field (sample count
`N = n * B` with `n = 2 ^ L` leaf blocks per row, the power-of-two shape
enforced at construction), the stored root range `(mMinSample, mMaxSample)`
of the recursive range-block hierarchy equals the exhaustive-scan minimum
and maximum over all quantized samples; it is a lower/upper bound on every
non-sentinel sample, it is attained by a non-sentinel sample whenever one
exists, and when every sample is the sentinel the root stays at the
untouched initial values `(0xffff, 0)`, i.e. no non-sentinel sample
constrains it. -/
theorem hf_root_range_is_true_min_max
    (B n L N : ℕ) (g : ℕ → ℕ → ℕ)
    (hB : 1 ≤ B) (hn : n = 2 ^ L) (hN : N = n * B)
    (hg : ∀ x y, x < N → y < N → g x y ≤ 0xffff) :
    rootRangeMin B n L g = scanMin N g ∧
    rootRangeMax B n L g = scanMax N g ∧
    (∀ x y, x < N → y < N → g x y ≠ cNoCollisionValue16 →
      rootRangeMin B n L g ≤ g x y ∧ g x y ≤ rootRangeMax B n L g) ∧
    ((∃ x y, x < N ∧ y < N ∧ g x y ≠ cNoCollisionValue16) →
      (∃ x y, x < N ∧ y < N ∧ g x y ≠ cNoCollisionValue16 ∧
        rootRangeMin B n L g = g x y) ∧
      (∃ x y, x < N ∧ y < N ∧ g x y ≠ cNoCollisionValue16 ∧
        rootRangeMax B n L g = g x y)) ∧
    ((∀ x y, x < N → y < N → g x y = cNoCollisionValue16) →
      rootRangeMin B n L g = cNoCollisionValue16 ∧ rootRangeMax B n L g = 0) := by
  have hBpos : 0 < B := hB
  have hroot_le : ∀ x y, x < N → y < N → g x y ≠ cNoCollisionValue16 →
      rootRangeMin B n L g ≤ g x y := by
    intro x y hx hy hs
    have hxn : x / B < n := by
      rw [Nat.div_lt_iff_lt_mul hBpos]
      omega
    have hyn : y / B < n := by
      rw [Nat.div_lt_iff_lt_mul hBpos]
      omega
    have hchain := rangeMinAt_le_leafMin B n g L 0 0 (x / B) (y / B)
      (by rw [← hn]; exact hxn) (by rw [← hn]; exact hyn)
    simp only [Nat.mul_zero, Nat.zero_add] at hchain
    refine le_trans hchain ?_
    exact foldMinNC_le_mem _ _ _ (self_mem_blockSampleList B n g hB x y) hs
  have hle_root : ∀ x y, x < N → y < N → g x y ≠ cNoCollisionValue16 →
      g x y ≤ rootRangeMax B n L g := by
    intro x y hx hy hs
    have hxn : x / B < n := by
      rw [Nat.div_lt_iff_lt_mul hBpos]
      omega
    have hyn : y / B < n := by
      rw [Nat.div_lt_iff_lt_mul hBpos]
      omega
    have hchain := leafMax_le_rangeMaxAt B n g L 0 0 (x / B) (y / B)
      (by rw [← hn]; exact hxn) (by rw [← hn]; exact hyn)
    simp only [Nat.mul_zero, Nat.zero_add] at hchain
    refine le_trans ?_ hchain
    exact mem_le_foldMaxNC _ _ _ (self_mem_blockSampleList B n g hB x y) hs
  have hmin : rootRangeMin B n L g = scanMin N g := by
    apply le_antisymm
    · refine le_foldMinNC _ _ _ (rangeMinAt_le_top B n g L 0 0) ?_
      intro a ha hs
      obtain ⟨x, y, hx, hy, rfl⟩ := mem_of_quantizedList N g a ha
      exact hroot_le x y hx hy hs
    · exact scanMin_le_rangeMinAt B n N g hB hN L 0 0
        (by rw [hn]; omega) (by rw [hn]; omega)
  have hmax : rootRangeMax B n L g = scanMax N g := by
    apply le_antisymm
    · exact rangeMaxAt_le_scanMax B n N g hB hN L 0 0
        (by rw [hn]; omega) (by rw [hn]; omega)
    · refine foldMaxNC_le _ _ _ (Nat.zero_le _) ?_
      intro a ha hs
      obtain ⟨x, y, hx, hy, rfl⟩ := mem_of_quantizedList N g a ha
      exact hle_root x y hx hy hs
  refine ⟨hmin, hmax, ?_, ?_, ?_⟩
  · intro x y hx hy hs
    exact ⟨hroot_le x y hx hy hs, hle_root x y hx hy hs⟩
  · rintro ⟨x, y, hx, hy, hs⟩
    constructor
    · rcases foldMinNC_eq_init_or_mem (quantizedList N g) 0xffff
        with he | ⟨a, ha, has, heq⟩
      · exfalso
        have h1 : scanMin N g ≤ g x y := foldMinNC_le_mem _ _ _
          (self_mem_quantizedList N g x y hx hy) hs
        have h2 : g x y ≤ 0xffff := hg x y hx hy
        have h3 : g x y ≠ cNoCollisionValue16 := hs
        have h4 : scanMin N g = 0xffff := he
        simp only [cNoCollisionValue16] at h3
        omega
      · obtain ⟨x', y', hx', hy', rfl⟩ := mem_of_quantizedList N g a ha
        exact ⟨x', y', hx', hy', has, by rw [hmin]; exact heq⟩
    · rcases foldMaxNC_eq_init_or_mem (quantizedList N g) 0
        with he | ⟨a, ha, has, heq⟩
      · have h1 : g x y ≤ scanMax N g := mem_le_foldMaxNC _ _ _
          (self_mem_quantizedList N g x y hx hy) hs
        have he' : scanMax N g = 0 := he
        have h2 : g x y = 0 := by omega
        exact ⟨x, y, hx, hy, hs, by rw [hmax, he', h2]⟩
      · obtain ⟨x', y', hx', hy', rfl⟩ := mem_of_quantizedList N g a ha
        exact ⟨x', y', hx', hy', has, by rw [hmax]; exact heq⟩
  · intro hall
    have hs : ∀ a ∈ quantizedList N g, a = cNoCollisionValue16 := by
      intro a ha
      obtain ⟨x, y, hx, hy, rfl⟩ := mem_of_quantizedList N g a ha
      exact hall x y hx hy
    refine ⟨?_, ?_⟩
    · rw [hmin]
      exact foldMinNC_all_sentinel _ _ hs
    · rw [hmax]
      exact foldMaxNC_all_sentinel _ _ hs

/-- Concrete 4x4 grid used by the C1 witness: sample (0,0) is the sentinel,
the rest are distinct small values. -/
def gWitness : ℕ → ℕ → ℕ := fun x y =>
  if x = 0 ∧ y = 0 then 0xffff else 10 * y + x + 1

/-- Witness for C1 at `B = 2`, `L = 1`, `n = 2`, `N = 4`. -/
theorem hf_root_range_is_true_min_max_witness :
    ((1 : ℕ) ≤ 2 ∧ (2 : ℕ) = 2 ^ 1 ∧ (4 : ℕ) = 2 * 2 ∧
      (∀ x y, x < 4 → y < 4 → gWitness x y ≤ 0xffff)) ∧
    (rootRangeMin 2 2 1 gWitness = scanMin 4 gWitness ∧
    rootRangeMax 2 2 1 gWitness = scanMax 4 gWitness ∧
    (∀ x y, x < 4 → y < 4 → gWitness x y ≠ cNoCollisionValue16 →
      rootRangeMin 2 2 1 gWitness ≤ gWitness x y ∧
      gWitness x y ≤ rootRangeMax 2 2 1 gWitness) ∧
    ((∃ x y, x < 4 ∧ y < 4 ∧ gWitness x y ≠ cNoCollisionValue16) →
      (∃ x y, x < 4 ∧ y < 4 ∧ gWitness x y ≠ cNoCollisionValue16 ∧
        rootRangeMin 2 2 1 gWitness = gWitness x y) ∧
      (∃ x y, x < 4 ∧ y < 4 ∧ gWitness x y ≠ cNoCollisionValue16 ∧
        rootRangeMax 2 2 1 gWitness = gWitness x y)) ∧
    ((∀ x y, x < 4 → y < 4 → gWitness x y = cNoCollisionValue16) →
      rootRangeMin 2 2 1 gWitness = cNoCollisionValue16 ∧
      rootRangeMax 2 2 1 gWitness = 0)) := by
  have hg : ∀ x y, x < 4 → y < 4 → gWitness x y ≤ 0xffff := by
    intro x y hx hy
    unfold gWitness
    split <;> omega
  exact ⟨⟨by norm_num, by norm_num, by norm_num, hg⟩,
    hf_root_range_is_true_min_max 2 2 1 4 gWitness (by norm_num) (by norm_num)
      (by norm_num) hg⟩

/-! ## Height-field construction validation (claim C2)

`HeightFieldShape::HeightFieldShape` (HeightFieldShape.cpp lines 102-160)
validates its settings in order and reports the first failure through
`outResult.SetError(...)`, returning without calling `outResult.Set(this)`;
when every check passes, construction always completes and ends in
`outResult.Set(this)` (line 436). -/

/-- `IsPowerOf2` (Core/Math helper, not in the snapshot; modelled from the
spec as the engine's bit trick `(n & (n - 1)) == 0`, which also accepts
zero — a zero sample count is separately rejected by the minimum-size
check). -/
def isPowerOf2 (n : ℕ) : Bool := n &&& (n - 1) == 0

/-- Modelled from the spec: `SubShapeID::MaxBits`, the engine-wide bit
budget of the 32-bit packed sub-shape path. -/
def subShapeIDMaxBits : ℕ := 32

/-- `GetSubShapeIDBits` (HeightFieldShape.cpp lines 574-578): X, Y and one
triangle bit.  For a stand-alone height field this is also
`GetSubShapeIDBitsRecursive`, since the shape is a leaf. -/
def getSubShapeIDBits (sampleCount : ℕ) : ℕ := 2 * ctz sampleCount + 1

/-- The constructor's validation sequence (HeightFieldShape.cpp lines
102-160), with the exact error strings (the material message's formatted
indices elided).  `materialsLen` is `mMaterials.size()`;
`materialIndices` is `inSettings.mMaterialIndices`. -/
def heightFieldValidate (B sampleCount materialsLen : ℕ)
    (materialIndices : List ℕ) : Option String :=
  if ¬ isPowerOf2 sampleCount then
    some "HeightFieldShape: Sample count must be power of 2!"
  else if sampleCount < B * 2 then
    some "HeightFieldShape: Sample count too low!"
  else if sampleCount > B * (1 <<< cNumBitsXY) then
    some "HeightFieldShape: Sample count too high!"
  else if getSubShapeIDBits sampleCount > subShapeIDMaxBits then
    some "HeightFieldShape: Size exceeds the amount of available sub shape ID bits!"
  else if materialsLen ≠ 0 then
    if materialsLen > 256 then
      some "Supporting max 256 materials per height field"
    else if materialIndices.any fun s => materialsLen ≤ s then
      some "Material is beyond material list"
    else none
  else if materialIndices ≠ [] then
    some "No materials present, mHeightSamples should be empty"
  else none

/-- **C2.** Height-field construction fails with a named construction error
(an error result, no shape) exactly when the sample count is not a power of
two, or below twice the block size, or above either of the two addressable
upper bounds (the `cNumBitsXY` grid-walk budget and the 32-bit sub-shape-ID
budget), or more than 256 materials are supplied, or some material index
references outside the material list (an index supplied with an empty list
always references outside it). -/
theorem hf_construction_error_iff (B N materialsLen : ℕ)
    (materialIndices : List ℕ) :
    (heightFieldValidate B N materialsLen materialIndices).isSome = true ↔
      (¬ isPowerOf2 N = true ∨ N < B * 2 ∨ N > B * 2 ^ cNumBitsXY ∨
        getSubShapeIDBits N > subShapeIDMaxBits ∨ materialsLen > 256 ∨
        ∃ i ∈ materialIndices, materialsLen ≤ i) := by
  have hshift : (1 : ℕ) <<< cNumBitsXY = 2 ^ cNumBitsXY := Nat.one_shiftLeft _
  rw [heightFieldValidate, hshift]
  by_cases h1 : isPowerOf2 N = true
  case neg =>
    rw [if_pos h1]
    simp only [Option.isSome_some, true_iff]
    exact Or.inl h1
  rw [if_neg (not_not_intro h1)]
  by_cases h2 : N < B * 2
  case pos =>
    rw [if_pos h2]
    simp only [Option.isSome_some, true_iff]
    exact Or.inr (Or.inl h2)
  rw [if_neg h2]
  by_cases h3 : N > B * 2 ^ cNumBitsXY
  case pos =>
    rw [if_pos h3]
    simp only [Option.isSome_some, true_iff]
    exact Or.inr (Or.inr (Or.inl h3))
  rw [if_neg h3]
  by_cases h4 : getSubShapeIDBits N > subShapeIDMaxBits
  case pos =>
    rw [if_pos h4]
    simp only [Option.isSome_some, true_iff]
    exact Or.inr (Or.inr (Or.inr (Or.inl h4)))
  rw [if_neg h4]
  by_cases h5 : materialsLen ≠ 0
  case pos =>
    rw [if_pos h5]
    by_cases h6 : materialsLen > 256
    case pos =>
      rw [if_pos h6]
      simp only [Option.isSome_some, true_iff]
      exact Or.inr (Or.inr (Or.inr (Or.inr (Or.inl h6))))
    rw [if_neg h6]
    by_cases h7 : (materialIndices.any fun s => materialsLen ≤ s) = true
    case pos =>
      rw [if_pos h7]
      simp only [Option.isSome_some, true_iff]
      refine Or.inr (Or.inr (Or.inr (Or.inr (Or.inr ?_))))
      simpa using List.any_eq_true.mp h7
    case neg =>
      rw [if_neg h7]
      simp only [Option.isSome_none, Bool.false_eq_true, false_iff]
      push_neg
      refine ⟨h1, by omega, by omega, by omega, by omega, ?_⟩
      intro i hi
      by_contra hcon
      exact h7 (List.any_eq_true.mpr ⟨i, hi, decide_eq_true (by omega)⟩)
  case neg =>
    rw [if_neg h5]
    by_cases h8 : materialIndices ≠ []
    case pos =>
      rw [if_pos h8]
      simp only [Option.isSome_some, true_iff]
      refine Or.inr (Or.inr (Or.inr (Or.inr (Or.inr ?_))))
      rcases List.exists_mem_of_ne_nil materialIndices h8 with ⟨i, hi⟩
      exact ⟨i, hi, by omega⟩
    case neg =>
      rw [if_neg h8]
      simp only [Option.isSome_none, Bool.false_eq_true, false_iff]
      push_neg
      refine ⟨h1, by omega, by omega, by omega, by omega, ?_⟩
      intro i hi
      simp only [ne_eq, not_not] at h8
      rw [h8] at hi
      cases hi

/-- Witness for C2 at block size 2: the non-power-of-two sample count 5 is
rejected. -/
theorem hf_construction_error_iff_witness :
    (heightFieldValidate 2 5 0 []).isSome = true :=
  (hf_construction_error_iff 2 5 0 []).mpr (Or.inl (by decide))

/-! ## Sub-shape ID encoding and decoding (claims C10, C9) -/

/-- Modelled from the spec: `SubShapeID` is a variable-width bit-packed
path; bit groups pushed first occupy the low bits and are popped first.
`numBits` tracks how many pushed bits remain, so an exhausted path is
empty. -/
structure SubShapeID where
  value : ℕ
  numBits : ℕ
deriving DecidableEq

/-- Modelled from the spec: the creator object that each nesting level
pushes bit groups onto. -/
structure SubShapeIDCreator where
  value : ℕ
  currentBit : ℕ
deriving DecidableEq

/-- A fresh creator: no bits pushed yet. -/
def SubShapeIDCreator.empty : SubShapeIDCreator := ⟨0, 0⟩

/-- Push `bits` bits holding `v` at the current bit position (modelled from
the spec's big-endian-stream description; low bits first, mirroring
`value | (v << currentBit)`). -/
def SubShapeIDCreator.pushID (c : SubShapeIDCreator) (v bits : ℕ) :
    SubShapeIDCreator :=
  ⟨c.value + v % 2 ^ bits * 2 ^ c.currentBit, c.currentBit + bits⟩

/-- The packed id accumulated so far. -/
def SubShapeIDCreator.getID (c : SubShapeIDCreator) : SubShapeID :=
  ⟨c.value, c.currentBit⟩

/-- Pop `bits` bits: return them and the remainder path. -/
def SubShapeID.popID (s : SubShapeID) (bits : ℕ) : ℕ × SubShapeID :=
  (s.value % 2 ^ bits, ⟨s.value / 2 ^ bits, s.numBits - bits⟩)

/-- A path with no remaining bits is empty. -/
def SubShapeID.isEmpty (s : SubShapeID) : Bool := s.numBits == 0

/-- `HeightFieldShape::EncodeSubShapeID` (HeightFieldShape.cpp lines
580-583): push `(x + y * sampleCount) * 2 + triangle` in
`GetSubShapeIDBits` bits. -/
def encodeSubShapeID (sampleCount : ℕ) (creator : SubShapeIDCreator)
    (x y triangle : ℕ) : SubShapeID :=
  (creator.pushID ((x + y * sampleCount) * 2 + triangle)
    (getSubShapeIDBits sampleCount)).getID

/-- `HeightFieldShape::DecodeSubShapeID` (HeightFieldShape.cpp lines
585-599): pop the same number of bits, split off the triangle bit, then
recover x and y by modulus and division. -/
def decodeSubShapeID (sampleCount : ℕ) (s : SubShapeID) :
    ℕ × ℕ × ℕ × SubShapeID :=
  let p := s.popID (getSubShapeIDBits sampleCount)
  let triangle := p.1 % 2
  let id2 := p.1 / 2
  (id2 % sampleCount, id2 / sampleCount, triangle, p.2)

/-- **C10.** For a height field with power-of-two sample count `N = 2 ^ k`
(within the sub-shape bit budget) and any in-range quad coordinates and
triangle index, decoding the sub-shape ID produced from an empty creator
returns exactly `(x, y, triangle)` with an empty remainder, and the
encoding occupies `2 * k + 1` bits. -/
theorem hf_subshape_decode_encode (N k x y t : ℕ) (hN : N = 2 ^ k)
    (hx : x < N) (hy : y < N) (ht : t < 2)
    (hbits : 2 * k + 1 ≤ subShapeIDMaxBits) :
    decodeSubShapeID N (encodeSubShapeID N SubShapeIDCreator.empty x y t) =
      (x, y, t, ⟨0, 0⟩) ∧
    (decodeSubShapeID N
      (encodeSubShapeID N SubShapeIDCreator.empty x y t)).2.2.2.isEmpty = true ∧
    getSubShapeIDBits N = 2 * k + 1 := by
  have hNpos : 0 < N := by
    rw [hN]
    positivity
  have hgb : getSubShapeIDBits N = 2 * k + 1 := by
    rw [getSubShapeIDBits, hN, ctz_two_pow]
  obtain ⟨M, hM⟩ : ∃ M, N = M + 1 := ⟨N - 1, by omega⟩
  have hv : (x + y * N) * 2 + t < 2 ^ (2 * k + 1) := by
    have hpow : (2 : ℕ) ^ (2 * k + 1) = 2 * (2 ^ k * 2 ^ k) := by ring
    have hNN : N * N = 2 ^ k * 2 ^ k := by rw [hN]
    have hxy : x + y * N < N * N := by
      have hy' : y ≤ M := by omega
      have hyM : y * N ≤ M * N := Nat.mul_le_mul_right N hy'
      have h6 : N * N = M * N + N := by
        rw [hM]
        ring
      linarith
    rw [hpow, ← hNN]
    linarith
  have hvmod : ((x + y * N) * 2 + t) % 2 ^ (2 * k + 1) = (x + y * N) * 2 + t :=
    Nat.mod_eq_of_lt hv
  have hvdiv : ((x + y * N) * 2 + t) / 2 ^ (2 * k + 1) = 0 :=
    Nat.div_eq_of_lt hv
  have henc : encodeSubShapeID N SubShapeIDCreator.empty x y t =
      ⟨(x + y * N) * 2 + t, 2 * k + 1⟩ := by
    rw [encodeSubShapeID, hgb, SubShapeIDCreator.empty, SubShapeIDCreator.pushID,
      SubShapeIDCreator.getID]
    simp only [pow_zero, Nat.mul_one, Nat.zero_add]
    rw [hvmod]
  have htri : ((x + y * N) * 2 + t) % 2 = t := by omega
  have hid2 : ((x + y * N) * 2 + t) / 2 = x + y * N := by omega
  have hxrec : (x + y * N) % N = x := by
    rw [Nat.add_mul_mod_self_right]
    exact Nat.mod_eq_of_lt hx
  have hyrec : (x + y * N) / N = y := by
    rw [Nat.add_mul_div_right _ _ hNpos, Nat.div_eq_of_lt hx]
    omega
  have hdec : decodeSubShapeID N (encodeSubShapeID N SubShapeIDCreator.empty x y t) =
      (x, y, t, ⟨0, 0⟩) := by
    rw [henc, decodeSubShapeID, hgb, SubShapeID.popID]
    simp only [hvmod, hvdiv, htri, hid2, hxrec, hyrec, Nat.sub_self]
  exact ⟨hdec, by rw [hdec]; rfl, hgb⟩

/-- Witness for C10 at `N = 4`, `k = 2`, `(x, y, triangle) = (3, 1, 1)`. -/
theorem hf_subshape_decode_encode_witness :
    ((4 : ℕ) = 2 ^ 2 ∧ (3 : ℕ) < 4 ∧ (1 : ℕ) < 4 ∧ (1 : ℕ) < 2 ∧
      2 * 2 + 1 ≤ subShapeIDMaxBits) ∧
    decodeSubShapeID 4 (encodeSubShapeID 4 SubShapeIDCreator.empty 3 1 1) =
      (3, 1, 1, ⟨0, 0⟩) := by
  refine ⟨⟨by norm_num, by norm_num, by norm_num, by norm_num, by decide⟩, ?_⟩
  exact (hf_subshape_decode_encode 4 2 3 1 1 (by norm_num) (by norm_num)
    (by norm_num) (by norm_num) (by decide)).1

/-! ## Exact-rational vectors -/

/-- `Vec3` modelled over exact rationals. -/
structure Vec3Q where
  x : ℚ
  y : ℚ
  z : ℚ
deriving DecidableEq

/-- Componentwise sum. -/
def Vec3Q.add (a b : Vec3Q) : Vec3Q := ⟨a.x + b.x, a.y + b.y, a.z + b.z⟩

/-- Componentwise difference. -/
def Vec3Q.sub (a b : Vec3Q) : Vec3Q := ⟨a.x - b.x, a.y - b.y, a.z - b.z⟩

/-- Componentwise product (`Vec3::operator*`). -/
def Vec3Q.mul (a b : Vec3Q) : Vec3Q := ⟨a.x * b.x, a.y * b.y, a.z * b.z⟩

/-- Scalar product. -/
def Vec3Q.smul (q : ℚ) (a : Vec3Q) : Vec3Q := ⟨q * a.x, q * a.y, q * a.z⟩

/-- `Vec3::Reciprocal`.  (Over ℚ, `1 / 0 = 0`; every use in this file
applies it to the all-ones vector, where the float computation is exact.) -/
def Vec3Q.reciprocal (a : Vec3Q) : Vec3Q := ⟨1 / a.x, 1 / a.y, 1 / a.z⟩

/-- Dot product. -/
def Vec3Q.dot (a b : Vec3Q) : ℚ := a.x * b.x + a.y * b.y + a.z * b.z

/-- Cross product. -/
def Vec3Q.cross (a b : Vec3Q) : Vec3Q :=
  ⟨a.y * b.z - a.z * b.y, a.z * b.x - a.x * b.z, a.x * b.y - a.y * b.x⟩

/-- The all-ones (identity) scale vector. -/
def vone : Vec3Q := ⟨1, 1, 1⟩

/-- The zero vector. -/
def vzero : Vec3Q := ⟨0, 0, 0⟩

/-! ## Binary state round-trip (claim C3)

`SaveBinaryState` / `RestoreBinaryState` (HeightFieldShape.cpp lines
1435-1465) write and read the fields in one fixed order.  The stream
itself (`StreamOut` / `StreamIn`, headers not in the snapshot) is modelled
from the spec as a list of typed field payloads whose round-trip is
byte-for-byte, i.e. payload-identical here. -/

/-- `HeightFieldShape::RangeBlock`: four packed 16-bit minima and maxima. -/
structure RangeBlock where
  rbMin : List ℕ
  rbMax : List ℕ
deriving DecidableEq

/-- Modelled from the spec: one value written to / read from the binary
stream.  `baseHeader` stands for the base `Shape::SaveBinaryState` data
written before the height-field fields. -/
inductive StreamValue where
  | baseHeader
  | vec3 (v : Vec3Q)
  | u32 (n : ℕ)
  | u16 (n : ℕ)
  | rangeBlockArray (l : List RangeBlock)
  | byteArray (l : List ℕ)
deriving DecidableEq

/-- The serialized state of a `HeightFieldShape` (the fields touched by
`SaveBinaryState` / `RestoreBinaryState`). -/
structure HeightFieldState where
  mOffset : Vec3Q
  mScale : Vec3Q
  mSampleCount : ℕ
  mMinSample : ℕ
  mMaxSample : ℕ
  mRangeBlocks : List RangeBlock
  mHeightSamples : List ℕ
  mActiveEdges : List ℕ
  mMaterialIndices : List ℕ
  mNumBitsPerMaterialIndex : ℕ
deriving DecidableEq

/-- `HeightFieldShape::SaveBinaryState` (lines 1435-1449): base header,
then the ten fields in source order. -/
def saveBinaryState (s : HeightFieldState) : List StreamValue :=
  [StreamValue.baseHeader,
   StreamValue.vec3 s.mOffset,
   StreamValue.vec3 s.mScale,
   StreamValue.u32 s.mSampleCount,
   StreamValue.u16 s.mMinSample,
   StreamValue.u16 s.mMaxSample,
   StreamValue.rangeBlockArray s.mRangeBlocks,
   StreamValue.byteArray s.mHeightSamples,
   StreamValue.byteArray s.mActiveEdges,
   StreamValue.byteArray s.mMaterialIndices,
   StreamValue.u32 s.mNumBitsPerMaterialIndex]

/-- `HeightFieldShape::RestoreBinaryState` (lines 1451-1465): sequential
reads in the same order into a fresh shape; a stream whose next values do
not have the expected types fails. -/
def restoreBinaryState (fresh : HeightFieldState) (stream : List StreamValue) :
    Option (HeightFieldState × List StreamValue) :=
  match stream with
  | StreamValue.baseHeader :: StreamValue.vec3 o :: StreamValue.vec3 sc ::
    StreamValue.u32 n :: StreamValue.u16 mn :: StreamValue.u16 mx ::
    StreamValue.rangeBlockArray rb :: StreamValue.byteArray hs ::
    StreamValue.byteArray ae :: StreamValue.byteArray mi ::
    StreamValue.u32 bits :: rest =>
      some ({ fresh with
        mOffset := o, mScale := sc, mSampleCount := n, mMinSample := mn,
        mMaxSample := mx, mRangeBlocks := rb, mHeightSamples := hs,
        mActiveEdges := ae, mMaterialIndices := mi,
        mNumBitsPerMaterialIndex := bits }, rest)
  | _ => none

/-- **C3.** `SaveBinaryState` followed by `RestoreBinaryState` on any fresh
shape reproduces the saved state exactly — in particular the height-sample,
range-block, material-index and active-edge buffers are bit-identical —
consuming the whole stream, and the save stream lists the fields in the
order offset, scale, sample count, min sample, max sample, range blocks,
height samples, active edges, material indices, bits-per-material-index. -/
theorem hf_save_restore_roundtrip (s fresh : HeightFieldState) :
    restoreBinaryState fresh (saveBinaryState s) = some (s, []) ∧
    saveBinaryState s =
      [StreamValue.baseHeader,
       StreamValue.vec3 s.mOffset,
       StreamValue.vec3 s.mScale,
       StreamValue.u32 s.mSampleCount,
       StreamValue.u16 s.mMinSample,
       StreamValue.u16 s.mMaxSample,
       StreamValue.rangeBlockArray s.mRangeBlocks,
       StreamValue.byteArray s.mHeightSamples,
       StreamValue.byteArray s.mActiveEdges,
       StreamValue.byteArray s.mMaterialIndices,
       StreamValue.u32 s.mNumBitsPerMaterialIndex] :=
  ⟨rfl, rfl⟩

/-! ## Early-out clamping in shape sweeps (claim C5) -/

/-- Modelled from the spec: `FLT_MIN`, the smallest positive normalized
single-precision float. -/
def fltMin : ℚ := 1 / 2 ^ 126

/-- The effect of `MyCollector::PropagateEarlyOutFraction` on the
broad-phase collector: either a forced early-out or an update carrying a
fraction value. -/
inductive EarlyOutAction where
  | forceEarlyOut
  | update (fraction : ℚ)
deriving DecidableEq

/-- `NarrowPhaseQuery::CastShape`'s `MyCollector::PropagateEarlyOutFraction`
(NarrowPhaseQuery.cpp lines 216-223): when the narrow-phase collector wants
a full early-out, force it; otherwise push up its early-out fraction
clamped from below by `FLT_MIN`. -/
def propagateEarlyOutFraction (narrowShouldEarlyOut : Bool)
    (narrowEarlyOutFraction : ℚ) : EarlyOutAction :=
  if narrowShouldEarlyOut then EarlyOutAction.forceEarlyOut
  else EarlyOutAction.update (max fltMin narrowEarlyOutFraction)

/-- **C5.** The fraction propagated to the broad-phase collector is never
zero or negative: a value is pushed exactly when no full early-out is
requested, every pushed value is at least `FLT_MIN` (hence positive), a
non-positive narrow-phase early-out is clamped to exactly `FLT_MIN`, and a
value already at or above `FLT_MIN` passes through unchanged. -/
theorem npq_cast_shape_early_out_clamped (b : Bool) (f : ℚ) :
    (propagateEarlyOutFraction b f = EarlyOutAction.forceEarlyOut ↔ b = true) ∧
    (∀ v, propagateEarlyOutFraction b f = EarlyOutAction.update v →
      0 < v ∧ fltMin ≤ v ∧ (f ≤ 0 → v = fltMin) ∧ (fltMin ≤ f → v = f)) := by
  have hpos : (0 : ℚ) < fltMin := by
    rw [fltMin]
    positivity
  cases b with
  | true =>
      refine ⟨by simp [propagateEarlyOutFraction], ?_⟩
      intro v hv
      simp [propagateEarlyOutFraction] at hv
  | false =>
      refine ⟨by simp [propagateEarlyOutFraction], ?_⟩
      intro v hv
      simp only [propagateEarlyOutFraction, if_neg Bool.false_ne_true,
        EarlyOutAction.update.injEq] at hv
      subst hv
      refine ⟨lt_of_lt_of_le hpos (le_max_left _ _), le_max_left _ _, ?_, ?_⟩
      · intro hf
        exact max_eq_left (le_trans hf (le_of_lt hpos))
      · intro hf
        exact max_eq_right hf

/-- Witness for C5 at `b = false`, `f = -3` (a penetration-depth style
negative early-out): the propagated value is exactly `FLT_MIN`. -/
theorem npq_cast_shape_early_out_clamped_witness :
    propagateEarlyOutFraction false (-3) = EarlyOutAction.update fltMin ∧
    (0 < fltMin ∧ fltMin ≤ fltMin ∧ ((-3 : ℚ) ≤ 0 → fltMin = fltMin) ∧
      (fltMin ≤ -3 → fltMin = -3)) := by
  have hmax : max fltMin (-3 : ℚ) = fltMin := by
    apply max_eq_left
    rw [fltMin]
    norm_num
  have heq : propagateEarlyOutFraction false (-3) = EarlyOutAction.update fltMin := by
    rw [propagateEarlyOutFraction, if_neg Bool.false_ne_true, hmax]
  exact ⟨heq, (npq_cast_shape_early_out_clamped false (-3)).2 fltMin heq⟩

/-! ## The collision dispatcher (claims C6, C7)

`CollisionDispatch::sCollideShapeVsShape` and
`CollisionDispatch::sCastShapeVsShape` (CollisionDispatch.cpp) are modelled
as functions from the shapes' runtime types to the trace of observable
actions they perform: consulting the shape filter, unwrapping a scaled
shape, invoking a concrete pairwise routine, or hitting the
`JPH_ASSERT(false, ...)` for an immovable shape in a dynamic slot.  The
collector is only ever passed to invoked routines, so a trace with no
routine invocation leaves the collector unchanged. -/

/-- `EShapeType`: the runtime type tags of the dispatch matrix. -/
inductive EShapeType where
  | convex
  | mesh
  | heightField
  | staticCompound
  | mutableCompound
  | scaled
  | rotatedTranslated
  | offsetCenterOfMass
deriving DecidableEq

/-- A shape as seen by the dispatcher: leaf types plus decorators wrapping
an inner shape. -/
inductive ShapeTree where
  | convex
  | mesh
  | heightField
  | staticCompound
  | mutableCompound
  | scaled (inner : ShapeTree)
  | rotatedTranslated (inner : ShapeTree)
  | offsetCenterOfMass (inner : ShapeTree)
deriving DecidableEq

/-- `Shape::GetType`: the runtime tag of the outermost node. -/
def ShapeTree.getType : ShapeTree → EShapeType
  | ShapeTree.convex => EShapeType.convex
  | ShapeTree.mesh => EShapeType.mesh
  | ShapeTree.heightField => EShapeType.heightField
  | ShapeTree.staticCompound => EShapeType.staticCompound
  | ShapeTree.mutableCompound => EShapeType.mutableCompound
  | ShapeTree.scaled _ => EShapeType.scaled
  | ShapeTree.rotatedTranslated _ => EShapeType.rotatedTranslated
  | ShapeTree.offsetCenterOfMass _ => EShapeType.offsetCenterOfMass

/-- The concrete pairwise collide routines of the dispatch matrix
(CollisionDispatch.cpp lines 22-98). -/
inductive CollideRoutine where
  | collideConvexVsConvex
  | collideConvexVsMesh
  | collideConvexVsHeightField
  | collideShapeVsCompound
  | collideShapeVsRotatedTranslated
  | collideShapeVsOffsetCenterOfMassShape
  | collideCompoundVsShape
  | collideRotatedTranslatedVsShape
  | collideOffsetCenterOfMassShapeVsShape
deriving DecidableEq

/-- Observable actions of `sCollideShapeVsShape`. -/
inductive DispatchEvent where
  | assertFailed
  | invokeRoutine (r : CollideRoutine)
  | unwrapScaled1
  | unwrapScaled2
deriving DecidableEq

/-- `CollisionDispatch::sCollideShapeVsShape` (CollisionDispatch.cpp lines
22-98): two-level switch on the runtime types; scaled shapes are unwrapped
recursively (multiplying the running scale), mesh/height-field as the first
(dynamic) argument hits `JPH_ASSERT(false, "Mesh / height field shapes
cannot be dynamic, ignoring!")` and invokes nothing. -/
def sCollideShapeVsShape : ShapeTree → ShapeTree → List DispatchEvent
  | ShapeTree.convex, ShapeTree.convex =>
      [DispatchEvent.invokeRoutine CollideRoutine.collideConvexVsConvex]
  | ShapeTree.convex, ShapeTree.mesh =>
      [DispatchEvent.invokeRoutine CollideRoutine.collideConvexVsMesh]
  | ShapeTree.convex, ShapeTree.heightField =>
      [DispatchEvent.invokeRoutine CollideRoutine.collideConvexVsHeightField]
  | ShapeTree.convex, ShapeTree.staticCompound =>
      [DispatchEvent.invokeRoutine CollideRoutine.collideShapeVsCompound]
  | ShapeTree.convex, ShapeTree.mutableCompound =>
      [DispatchEvent.invokeRoutine CollideRoutine.collideShapeVsCompound]
  | ShapeTree.convex, ShapeTree.scaled inner =>
      DispatchEvent.unwrapScaled2 :: sCollideShapeVsShape ShapeTree.convex inner
  | ShapeTree.convex, ShapeTree.rotatedTranslated _ =>
      [DispatchEvent.invokeRoutine CollideRoutine.collideShapeVsRotatedTranslated]
  | ShapeTree.convex, ShapeTree.offsetCenterOfMass _ =>
      [DispatchEvent.invokeRoutine CollideRoutine.collideShapeVsOffsetCenterOfMassShape]
  | ShapeTree.mesh, _ => [DispatchEvent.assertFailed]
  | ShapeTree.heightField, _ => [DispatchEvent.assertFailed]
  | ShapeTree.staticCompound, _ =>
      [DispatchEvent.invokeRoutine CollideRoutine.collideCompoundVsShape]
  | ShapeTree.mutableCompound, _ =>
      [DispatchEvent.invokeRoutine CollideRoutine.collideCompoundVsShape]
  | ShapeTree.scaled inner, s2 =>
      DispatchEvent.unwrapScaled1 :: sCollideShapeVsShape inner s2
  | ShapeTree.rotatedTranslated _, _ =>
      [DispatchEvent.invokeRoutine CollideRoutine.collideRotatedTranslatedVsShape]
  | ShapeTree.offsetCenterOfMass _, _ =>
      [DispatchEvent.invokeRoutine CollideRoutine.collideOffsetCenterOfMassShapeVsShape]
termination_by s1 s2 => sizeOf s1 + sizeOf s2
decreasing_by
  all_goals simp_wf

/-- The concrete cast routines (CollisionDispatch.cpp lines 100-142). -/
inductive CastRoutine where
  | castCompoundShapeVsShape
  | convexCastShape
  | castRotatedTranslatedShapeVsShape
  | castOffsetCenterOfMassShapeVsShape
deriving DecidableEq

/-- Observable actions of `sCastShapeVsShape`. -/
inductive CastEvent where
  | consultShapeFilter (accepted : Bool)
  | assertFailed
  | unwrapScaled
  | invokeRoutine (r : CastRoutine)
deriving DecidableEq

/-- `CollisionDispatch::sCastShapeVsShape` (CollisionDispatch.cpp lines
100-142): the shape filter is consulted on the two sub-shape IDs before
anything else; on rejection the function returns at once.  Otherwise it
switches on the cast shape's runtime type: compounds and convex shapes go
to their routines, mesh/height-field hit `JPH_ASSERT(false, "Cannot cast a
mesh / height field, ignoring!")`, a scaled shape is unwrapped and
re-dispatched (the recursive call re-consults the filter with the same,
unchanged sub-shape IDs, so the same verdict applies). -/
def sCastShapeVsShape (filterAccepts : Bool) (castShape : ShapeTree) :
    List CastEvent :=
  if ¬ filterAccepts then [CastEvent.consultShapeFilter false]
  else CastEvent.consultShapeFilter true ::
    match castShape with
    | ShapeTree.staticCompound =>
        [CastEvent.invokeRoutine CastRoutine.castCompoundShapeVsShape]
    | ShapeTree.mutableCompound =>
        [CastEvent.invokeRoutine CastRoutine.castCompoundShapeVsShape]
    | ShapeTree.convex =>
        [CastEvent.invokeRoutine CastRoutine.convexCastShape]
    | ShapeTree.mesh => [CastEvent.assertFailed]
    | ShapeTree.heightField => [CastEvent.assertFailed]
    | ShapeTree.scaled inner =>
        CastEvent.unwrapScaled :: sCastShapeVsShape filterAccepts inner
    | ShapeTree.rotatedTranslated _ =>
        [CastEvent.invokeRoutine CastRoutine.castRotatedTranslatedShapeVsShape]
    | ShapeTree.offsetCenterOfMass _ =>
        [CastEvent.invokeRoutine CastRoutine.castOffsetCenterOfMassShapeVsShape]

/-- **C6 counterexample.** A call to `sCastShapeVsShape` whose cast shape
is a mesh but whose shape filter rejects the sub-shape pair returns after
the filter consultation: no assertion fires (and no routine is invoked),
so the claim's unconditional "treats this as a fatal precondition violation
via an assertion" fails at this input. -/
theorem dispatch_static_first_counterexample :
    ShapeTree.mesh.getType = EShapeType.mesh ∧
    sCastShapeVsShape false ShapeTree.mesh = [CastEvent.consultShapeFilter false] ∧
    CastEvent.assertFailed ∉ sCastShapeVsShape false ShapeTree.mesh := by
  refine ⟨rfl, rfl, ?_⟩
  decide

/-- **C6 (amended).** With a mesh or height-field shape as the first
(dynamic) argument, `sCollideShapeVsShape` only hits the assertion —
no pairwise routine runs and the collector is untouched.  The same holds
for a mesh or height-field cast shape in `sCastShapeVsShape` provided the
shape filter accepts the sub-shape pair; when the filter rejects, the cast
returns after the filter consultation without asserting, and in every such
call no routine is invoked, leaving the collector unchanged. -/
theorem dispatch_static_first_amended (s1 s2 cs : ShapeTree)
    (h1 : s1.getType = EShapeType.mesh ∨ s1.getType = EShapeType.heightField)
    (hc : cs.getType = EShapeType.mesh ∨ cs.getType = EShapeType.heightField) :
    sCollideShapeVsShape s1 s2 = [DispatchEvent.assertFailed] ∧
    sCastShapeVsShape true cs =
      [CastEvent.consultShapeFilter true, CastEvent.assertFailed] ∧
    sCastShapeVsShape false cs = [CastEvent.consultShapeFilter false] ∧
    (∀ r, DispatchEvent.invokeRoutine r ∉ sCollideShapeVsShape s1 s2) ∧
    (∀ b r, CastEvent.invokeRoutine r ∉ sCastShapeVsShape b cs) := by
  have hs1 : s1 = ShapeTree.mesh ∨ s1 = ShapeTree.heightField := by
    cases s1 <;> simp [ShapeTree.getType] at h1 <;> simp
  have hcs : cs = ShapeTree.mesh ∨ cs = ShapeTree.heightField := by
    cases cs <;> simp [ShapeTree.getType] at hc <;> simp
  have hcol : sCollideShapeVsShape s1 s2 = [DispatchEvent.assertFailed] := by
    rcases hs1 with h | h <;> subst h <;> cases s2 <;>
      simp [sCollideShapeVsShape]
  have hct : sCastShapeVsShape true cs =
      [CastEvent.consultShapeFilter true, CastEvent.assertFailed] := by
    rcases hcs with h | h <;> subst h <;> rfl
  have hcf : sCastShapeVsShape false cs = [CastEvent.consultShapeFilter false] := by
    rcases hcs with h | h <;> subst h <;> rfl
  refine ⟨hcol, hct, hcf, ?_, ?_⟩
  · intro r
    rw [hcol]
    simp
  · intro b r
    cases b
    · rw [hcf]
      simp
    · rw [hct]
      simp

/-- Witness for the amended C6 at `s1 = mesh`, `s2 = convex`,
`cs = heightField`. -/
theorem dispatch_static_first_amended_witness :
    (ShapeTree.mesh.getType = EShapeType.mesh ∨
      ShapeTree.mesh.getType = EShapeType.heightField) ∧
    (ShapeTree.heightField.getType = EShapeType.mesh ∨
      ShapeTree.heightField.getType = EShapeType.heightField) ∧
    (sCollideShapeVsShape ShapeTree.mesh ShapeTree.convex =
      [DispatchEvent.assertFailed] ∧
    sCastShapeVsShape true ShapeTree.heightField =
      [CastEvent.consultShapeFilter true, CastEvent.assertFailed] ∧
    sCastShapeVsShape false ShapeTree.heightField =
      [CastEvent.consultShapeFilter false] ∧
    (∀ r, DispatchEvent.invokeRoutine r ∉
      sCollideShapeVsShape ShapeTree.mesh ShapeTree.convex) ∧
    (∀ b r, CastEvent.invokeRoutine r ∉
      sCastShapeVsShape b ShapeTree.heightField)) :=
  ⟨Or.inl rfl, Or.inr rfl,
    dispatch_static_first_amended ShapeTree.mesh ShapeTree.convex
      ShapeTree.heightField (Or.inl rfl) (Or.inr rfl)⟩

/-- **C7.** In every call to `sCastShapeVsShape` the very first action is
the shape-filter consultation — before any decorator unwrapping or type
dispatch — and when the filter rejects the pair the trace is exactly that
single consultation: no shape is unwrapped or transformed and no routine
(hence no hit) reaches the collector. -/
theorem dispatch_cast_filter_first (accepts : Bool) (cs : ShapeTree) :
    (sCastShapeVsShape accepts cs).head? =
      some (CastEvent.consultShapeFilter accepts) ∧
    (accepts = false →
      sCastShapeVsShape accepts cs = [CastEvent.consultShapeFilter false] ∧
      CastEvent.unwrapScaled ∉ sCastShapeVsShape accepts cs ∧
      (∀ r, CastEvent.invokeRoutine r ∉ sCastShapeVsShape accepts cs)) := by
  have hfalse : sCastShapeVsShape false cs = [CastEvent.consultShapeFilter false] := by
    unfold sCastShapeVsShape
    simp
  cases accepts
  · refine ⟨by rw [hfalse]; rfl, ?_⟩
    intro _
    exact ⟨hfalse, by rw [hfalse]; simp, fun r => by rw [hfalse]; simp⟩
  · constructor
    · unfold sCastShapeVsShape
      simp
    · intro h
      cases h

/-- Witness for C7 at a rejecting filter and a scaled-mesh cast shape. -/
theorem dispatch_cast_filter_first_witness :
    (sCastShapeVsShape false (ShapeTree.scaled ShapeTree.mesh)).head? =
      some (CastEvent.consultShapeFilter false) ∧
    (false = false →
      sCastShapeVsShape false (ShapeTree.scaled ShapeTree.mesh) =
        [CastEvent.consultShapeFilter false] ∧
      CastEvent.unwrapScaled ∉
        sCastShapeVsShape false (ShapeTree.scaled ShapeTree.mesh) ∧
      (∀ r, CastEvent.invokeRoutine r ∉
        sCastShapeVsShape false (ShapeTree.scaled ShapeTree.mesh))) :=
  dispatch_cast_filter_first false (ShapeTree.scaled ShapeTree.mesh)

/-! ## Single-hit narrow-phase ray cast (claim C4)

`NarrowPhaseQuery::CastRay` (NarrowPhaseQuery.cpp lines 17-65) walks the
broad-phase candidates through `MyCollector::AddHit`, narrowing
`ioHit.mFraction`, and finally returns `ioHit.mFraction <= 1.0f`.  The
broad phase and the per-body narrow phase are abstracted: a candidate body
carries its body-filter verdict and the fractions at which its shape would
be hit. -/

/-- Modelled from the spec: the default-constructed `RayCastResult`
fraction, `1.0f + FLT_EPSILON` — just past the end of the ray, so exactly
the hits with fraction ≤ 1 improve on it. -/
def defaultRayFraction : ℚ := 1 + 1 / 2 ^ 23

/-- A broad-phase candidate as the single-hit collector sees it. -/
structure CandidateBody where
  passesBodyFilter : Bool
  narrowHits : List ℚ
deriving DecidableEq

/-- Modelled from the spec: `TransformedShape::CastRay` — the narrow phase
returns the closest hit strictly closer than the incoming
`ioHit.mFraction`, updating it, and reports whether it found one. -/
def transformedShapeCastRay (hits : List ℚ) (cur : ℚ) : Option ℚ :=
  let best := hits.foldl min cur
  if best < cur then some best else none

/-- The single-hit collector's `AddHit` (NarrowPhaseQuery.cpp lines 33-53)
iterated over the candidate stream: apply the body filter, run the narrow
phase against the current best fraction, and remember whether any body
produced a hit.  Returns the final fraction and that flag. -/
def processBodies : List CandidateBody → ℚ → ℚ × Bool
  | [], f => (f, false)
  | b :: rest, f =>
      if b.passesBodyFilter then
        match transformedShapeCastRay b.narrowHits f with
        | some fNew => ((processBodies rest fNew).1, true)
        | none => processBodies rest f
      else processBodies rest f

/-- `NarrowPhaseQuery::CastRay`, single-hit variant: the return value is
`ioHit.mFraction <= 1.0f` after the broad-phase walk (line 64). -/
def narrowPhaseCastRay (bodies : List CandidateBody) : Bool :=
  decide ((processBodies bodies defaultRayFraction).1 ≤ 1)

theorem foldl_min_le (l : List ℚ) : ∀ c : ℚ, l.foldl min c ≤ c := by
  induction l with
  | nil => intro c; exact le_refl _
  | cons a l ih =>
      intro c
      exact le_trans (ih (min c a)) (min_le_left _ _)

theorem foldl_min_eq_or_mem (l : List ℚ) :
    ∀ c : ℚ, l.foldl min c = c ∨ l.foldl min c ∈ l := by
  induction l with
  | nil => intro c; exact Or.inl rfl
  | cons a l ih =>
      intro c
      rcases ih (min c a) with h | h
      · rcases le_total c a with hca | hca
        · exact Or.inl (by rw [List.foldl_cons, h, min_eq_left hca])
        · refine Or.inr ?_
          rw [List.foldl_cons, h, min_eq_right hca]
          exact List.mem_cons_self _ _
      · refine Or.inr (List.mem_cons_of_mem _ ?_)
        rw [List.foldl_cons]
        exact h

theorem transformedShapeCastRay_some (hits : List ℚ) (cur f' : ℚ)
    (h : transformedShapeCastRay hits cur = some f') :
    f' ∈ hits ∧ f' < cur := by
  rw [transformedShapeCastRay] at h
  by_cases hlt : hits.foldl min cur < cur
  · rw [if_pos hlt] at h
    obtain rfl : hits.foldl min cur = f' := by simpa using h
    refine ⟨?_, hlt⟩
    rcases foldl_min_eq_or_mem hits cur with he | hm
    · rw [he] at hlt
      exact absurd hlt (lt_irrefl _)
    · exact hm
  · rw [if_neg hlt] at h
    cases h

theorem processBodies_fst_le (l : List CandidateBody) :
    ∀ f : ℚ, (processBodies l f).1 ≤ f := by
  induction l with
  | nil => intro f; exact le_refl _
  | cons b rest ih =>
      intro f
      by_cases hb : b.passesBodyFilter
      · cases htc : transformedShapeCastRay b.narrowHits f with
        | some fNew =>
            have h1 := (transformedShapeCastRay_some _ _ _ htc).2
            have h2 := ih fNew
            simp only [processBodies, hb, if_true, htc]
            exact le_trans h2 (le_of_lt h1)
        | none =>
            simp only [processBodies, hb, if_true, htc]
            exact ih f
      · simp only [processBodies, hb, if_false]
        exact ih f

theorem processBodies_snd_false (l : List CandidateBody) :
    ∀ f : ℚ, (processBodies l f).2 = false → (processBodies l f).1 = f := by
  induction l with
  | nil => intro f _; rfl
  | cons b rest ih =>
      intro f
      by_cases hb : b.passesBodyFilter
      · cases htc : transformedShapeCastRay b.narrowHits f with
        | some fNew =>
            simp only [processBodies, hb, if_true, htc]
            intro h
            cases h
        | none =>
            simp only [processBodies, hb, if_true, htc]
            exact ih f
      · simp only [processBodies, hb, if_false]
        exact ih f

theorem processBodies_snd_true (l : List CandidateBody) :
    ∀ f : ℚ, (processBodies l f).2 = true →
      ∃ b ∈ l, b.passesBodyFilter = true ∧
        (processBodies l f).1 ∈ b.narrowHits ∧ (processBodies l f).1 < f := by
  induction l with
  | nil => intro f h; cases h
  | cons b rest ih =>
      intro f
      by_cases hb : b.passesBodyFilter
      · cases htc : transformedShapeCastRay b.narrowHits f with
        | some fNew =>
            simp only [processBodies, hb, if_true, htc]
            intro _
            obtain ⟨hmem, hlt⟩ := transformedShapeCastRay_some _ _ _ htc
            cases hsnd : (processBodies rest fNew).2 with
            | true =>
                obtain ⟨b', hb', hbf, hm, hl⟩ := ih fNew hsnd
                exact ⟨b', List.mem_cons_of_mem _ hb', hbf, hm,
                  lt_trans hl hlt⟩
            | false =>
                have heq := processBodies_snd_false rest fNew hsnd
                rw [heq]
                exact ⟨b, List.mem_cons_self _ _, hb, hmem, hlt⟩
        | none =>
            simp only [processBodies, hb, if_true, htc]
            intro h
            obtain ⟨b', hb', hbf, hm, hl⟩ := ih f h
            exact ⟨b', List.mem_cons_of_mem _ hb', hbf, hm, hl⟩
      · simp only [processBodies, hb, if_false]
        intro h
        obtain ⟨b', hb', hbf, hm, hl⟩ := ih f h
        exact ⟨b', List.mem_cons_of_mem _ hb', hbf, hm, hl⟩

/-- **C4.** The single-hit `NarrowPhaseQuery::CastRay` returns true only if
a hit with fraction ≤ 1 was found during the call: whenever it returns
true, some body passing the body filter produced the final fraction, which
is at most 1; and when no candidate body yields a hit, it returns false. -/
theorem npq_cast_ray_single_hit (bodies : List CandidateBody) :
    (narrowPhaseCastRay bodies = true →
      ∃ b ∈ bodies, b.passesBodyFilter = true ∧
        (processBodies bodies defaultRayFraction).1 ∈ b.narrowHits ∧
        (processBodies bodies defaultRayFraction).1 ≤ 1) ∧
    ((processBodies bodies defaultRayFraction).2 = false →
      narrowPhaseCastRay bodies = false) := by
  have hdef : (1 : ℚ) < defaultRayFraction := by
    rw [defaultRayFraction]
    norm_num
  constructor
  · intro h
    have hle : (processBodies bodies defaultRayFraction).1 ≤ 1 := by
      simpa [narrowPhaseCastRay] using h
    cases hsnd : (processBodies bodies defaultRayFraction).2 with
    | false =>
        have := processBodies_snd_false bodies defaultRayFraction hsnd
        rw [this] at hle
        exact absurd hle (not_le.mpr hdef)
    | true =>
        obtain ⟨b, hb, hbf, hm, _⟩ :=
          processBodies_snd_true bodies defaultRayFraction hsnd
        exact ⟨b, hb, hbf, hm, hle⟩
  · intro h
    have heq := processBodies_snd_false bodies defaultRayFraction h
    rw [narrowPhaseCastRay, heq]
    simpa using not_le.mpr hdef

/-- Witness for C4: one passing body hit at fraction 3/4 makes the cast
return true with that hit; one filtered-out body yields no hit and a false
return. -/
theorem npq_cast_ray_single_hit_witness :
    narrowPhaseCastRay [CandidateBody.mk true [3 / 4, 2]] = true ∧
    (∃ b ∈ [CandidateBody.mk true [3 / 4, 2]], b.passesBodyFilter = true ∧
      (processBodies [CandidateBody.mk true [3 / 4, 2]]
        defaultRayFraction).1 ∈ b.narrowHits ∧
      (processBodies [CandidateBody.mk true [3 / 4, 2]]
        defaultRayFraction).1 ≤ 1) ∧
    narrowPhaseCastRay [CandidateBody.mk false [1 / 2]] = false := by
  have htrue : narrowPhaseCastRay [CandidateBody.mk true [3 / 4, 2]] = true := by
    rw [narrowPhaseCastRay]
    norm_num [processBodies, transformedShapeCastRay, defaultRayFraction]
  have hfalse : (processBodies [CandidateBody.mk false [1 / 2]]
      defaultRayFraction).2 = false := rfl
  exact ⟨htrue, (npq_cast_ray_single_hit _).1 htrue,
    (npq_cast_ray_single_hit _).2 hfalse⟩

/-! ## Identity-scale decorator transparency (claim C8)

`ScaledShape` (ScaledShape.cpp) forwards every query to its inner shape
after scaling the inputs; the inner shape's behaviour is abstracted as
opaque query functions, so equality of results below is equality of the
full inner-shape calls.  The float operations involved for the identity
scale — reciprocal of 1 and multiplication by 1 — are exact, so the
rational model coincides with the float code. -/

/-- `RayCast` (RayCast.h): origin plus direction-with-length. -/
structure RayCastQ where
  origin : Vec3Q
  direction : Vec3Q
deriving DecidableEq

/-- The inner shape's query functions, abstracted; `α`, `β`, `γ` are the
result types of ray cast, point collision, and shape cast. -/
structure InnerShapeQueries (α β γ : Type) where
  castRay : RayCastQ → SubShapeIDCreator → α
  collidePoint : Vec3Q → SubShapeIDCreator → β
  castShape : Vec3Q → γ

/-- `ScaledShape::CastRay` (ScaledShape.cpp lines 104-116): scale the ray
by the reciprocal scale and forward, passing the sub-shape-ID creator
through unchanged. -/
def scaledShapeCastRay {α β γ : Type} (mScale : Vec3Q)
    (inner : InnerShapeQueries α β γ) (ray : RayCastQ)
    (creator : SubShapeIDCreator) : α :=
  let invScale := mScale.reciprocal
  inner.castRay ⟨invScale.mul ray.origin, invScale.mul ray.direction⟩ creator

/-- `ScaledShape::CollidePoint` (ScaledShape.cpp lines 118-122). -/
def scaledShapeCollidePoint {α β γ : Type} (mScale : Vec3Q)
    (inner : InnerShapeQueries α β γ) (point : Vec3Q)
    (creator : SubShapeIDCreator) : β :=
  inner.collidePoint (mScale.reciprocal.mul point) creator

/-- `ScaledShape::CastShape` (ScaledShape.cpp lines 124-127): forward with
`inScale * mScale`, all other arguments unchanged. -/
def scaledShapeCastShape {α β γ : Type} (mScale : Vec3Q)
    (inner : InnerShapeQueries α β γ) (inScale : Vec3Q) : γ :=
  inner.castShape (inScale.mul mScale)

/-- `ScaledShape::GetSubShapeTransformedShape` (ScaledShape.cpp lines
61-69): consumes no sub-shape-ID bits (the remainder is the incoming ID)
and scales the transformed shape by `inScale * mScale`. -/
def scaledShapeGetSubShapeTransformedShape (mScale : Vec3Q)
    (subShapeID : SubShapeID) (inScale : Vec3Q) : SubShapeID × Vec3Q :=
  (subShapeID, inScale.mul mScale)

/-- The scale combination the dispatcher applies when unwrapping a scaled
shape (CollisionDispatch.cpp lines 49-54 and 79-84):
`inScale * scaled_shape->GetScale()`. -/
def unwrapScaledShapeScale (inScale mScale : Vec3Q) : Vec3Q :=
  inScale.mul mScale

theorem vone_reciprocal : vone.reciprocal = vone := by
  rw [Vec3Q.reciprocal, vone]
  norm_num

theorem vone_mul (v : Vec3Q) : vone.mul v = v := by
  cases v
  rw [Vec3Q.mul, vone]
  norm_num

theorem mul_vone (v : Vec3Q) : v.mul vone = v := by
  cases v
  rw [Vec3Q.mul, vone]
  norm_num

/-- **C8.** Decorating with an identity-scale `ScaledShape` is transparent:
ray casts, point collisions and shape casts against the decorator are the
very same inner-shape calls (same ray, same point, same running scale, and
the same untouched sub-shape-ID creator — the decorator pushes no
sub-shape-ID bits), `GetSubShapeTransformedShape` returns the incoming
sub-shape ID as remainder, and the dispatcher's unwrap step leaves the
running scale unchanged. -/
theorem scaled_shape_identity_transparent {α β γ : Type}
    (inner : InnerShapeQueries α β γ) (ray : RayCastQ) (point : Vec3Q)
    (creator : SubShapeIDCreator) (subShapeID : SubShapeID)
    (inScale : Vec3Q) :
    scaledShapeCastRay vone inner ray creator = inner.castRay ray creator ∧
    scaledShapeCollidePoint vone inner point creator =
      inner.collidePoint point creator ∧
    scaledShapeCastShape vone inner inScale = inner.castShape inScale ∧
    scaledShapeGetSubShapeTransformedShape vone subShapeID inScale =
      (subShapeID, inScale) ∧
    unwrapScaledShapeScale inScale vone = inScale := by
  refine ⟨?_, ?_, ?_, ?_, ?_⟩
  · rw [scaledShapeCastRay]
    cases ray
    simp only [vone_reciprocal, vone_mul]
  · rw [scaledShapeCollidePoint, vone_reciprocal, vone_mul]
  · rw [scaledShapeCastShape, mul_vone]
  · rw [scaledShapeGetSubShapeTransformedShape, mul_vone]
  · rw [unwrapScaledShapeScale, mul_vone]

/-! ## The flat 4x4 ray-cast scenario (claim C9)

The whole pipeline for one concrete shape: quantization in the constructor
(HeightFieldShape.cpp lines 162-335), the stored `mRangeBlocks`
(lines 286-312), sample decompression (`GetBlockOffsetAndScale` /
`GetPosition`, lines 439-476), and the single-hit `CastRay` driven by
`DecodingContext::WalkHeightField` (lines 827-1098).  The block size
`cBlockSize` lives in the header that is not part of the snapshot; it is
modelled from the spec as 2 (a 2x2-sample block), the only value for which
the spec's scenario — a constructible 4x4 field whose hierarchy has one
stored level — is self-consistent.  All arithmetic in this scenario is
exact in single precision, so the rational model computes the float
result. -/

/-- Modelled from the spec: `FLT_MAX`, which is also
`HeightFieldShapeConstants::cNoCollisionValue`, the float no-collision
sentinel. -/
def cFLT_MAX : ℚ := (2 ^ 24 - 1) * 2 ^ 104

/-- C `round` (half away from zero) for the non-negative quantities the
constructor rounds. -/
def ratRound (q : ℚ) : ℤ := Rat.floor (q + 1 / 2)

/-- The constructor's running minimum over non-sentinel float heights
(HeightFieldShape.cpp lines 162-169). -/
def hfMinValue (heights : List ℚ) : ℚ :=
  heights.foldl (fun acc h => if h = cFLT_MAX then acc else min acc h) cFLT_MAX

/-- The constructor's running maximum over non-sentinel float heights. -/
def hfMaxValue (heights : List ℚ) : ℚ :=
  heights.foldl (fun acc h => if h = cFLT_MAX then acc else max acc h) (-cFLT_MAX)

/-- The 16-bit quantization scale (line 172): only divides when there was
any collision. -/
def quantScale (heights : List ℚ) : ℚ :=
  if hfMinValue heights < hfMaxValue heights then
    (cMaxHeightValue16 : ℚ) / (hfMaxValue heights - hfMinValue heights)
  else 1

/-- 16-bit quantization of the sample at `(x, y)` (lines 173-185). -/
def quantize16 (heights : List ℚ) (N x y : ℕ) : ℕ :=
  let h := heights.getD (y * N + x) cFLT_MAX
  if h = cFLT_MAX then cNoCollisionValue16
  else (ratRound (quantScale heights * (h - hfMinValue heights))).toNat

/-- The constructor's offset correction for the 16-bit compression
(lines 187-189): shift the Y offset by the minimum height when any sample
collides. -/
def adjustOffsetY (offset : Vec3Q) (heights : List ℚ) : Vec3Q :=
  if hfMinValue heights ≤ hfMaxValue heights then
    ⟨offset.x, offset.y + hfMinValue heights, offset.z⟩
  else offset

/-- The constructor's scale correction (line 190): divide the Y scale by
the quantization scale. -/
def adjustScaleY (scaleV : Vec3Q) (heights : List ℚ) : Vec3Q :=
  ⟨scaleV.x, scaleV.y / quantScale heights, scaleV.z⟩

/-- 8-bit re-quantization of a sample relative to its own leaf block's
range (lines 314-335). -/
def heightSample8 (B n : ℕ) (g16 : ℕ → ℕ → ℕ) (x y : ℕ) : ℕ :=
  let mn := leafRangeMin B n g16 (x / B) (y / B)
  let mx := leafRangeMax B n g16 (x / B) (y / B)
  let h := g16 x y
  if h = cNoCollisionValue16 then cNoCollisionValue8
  else if mx = mn then 0
  else (ratRound (((h : ℚ) - (mn : ℚ)) * (cMaxHeightValue8 : ℚ) /
    ((mx : ℚ) - (mn : ℚ)))).toNat

/-- The `RangeBlock` stored for hierarchy level `level`, position
`(x, y)` (lines 286-312): the 2x2 ranges of the level below, packed in
`by * 2 + bx` slot order.  In terms of `rangeMinAt` / `rangeMaxAt`
(distance from the leaf grid), stored level `level` of `L` holds nodes at
distance `L - 1 - level`. -/
def rangeBlockAt (B n L : ℕ) (g16 : ℕ → ℕ → ℕ) (level x y : ℕ) : RangeBlock :=
  let d := L - 1 - level
  ⟨[rangeMinAt B n g16 d (2 * x) (2 * y),
    rangeMinAt B n g16 d (2 * x + 1) (2 * y),
    rangeMinAt B n g16 d (2 * x) (2 * y + 1),
    rangeMinAt B n g16 d (2 * x + 1) (2 * y + 1)],
   [rangeMaxAt B n g16 d (2 * x) (2 * y),
    rangeMaxAt B n g16 d (2 * x + 1) (2 * y),
    rangeMaxAt B n g16 d (2 * x) (2 * y + 1),
    rangeMaxAt B n g16 d (2 * x + 1) (2 * y + 1)]⟩

/-- `mRangeBlocks`: all stored levels, outer loop over levels, then rows,
then columns (lines 286-312). -/
def hfRangeBlocks (B n L : ℕ) (g16 : ℕ → ℕ → ℕ) : List RangeBlock :=
  (List.range L).flatMap fun level =>
    (List.range (1 <<< level)).flatMap fun y =>
      (List.range (1 <<< level)).map fun x => rangeBlockAt B n L g16 level x y

/-- `HeightFieldShape::GetBlockOffsetAndScale` (lines 439-461). -/
def getBlockOffsetAndScale (B sampleCount : ℕ) (rbs : List RangeBlock)
    (x y : ℕ) : ℚ × ℚ :=
  let numBlocks := sampleCount / B
  let maxLevel := ctz numBlocks
  let bx := x / B
  let by2 := y / B
  let rbx := bx / 2
  let rby := by2 / 2
  let slot := by2 % 2 * 2 + bx % 2
  let block := rbs.getD (sGridOffsets.getD (maxLevel - 1) 0 +
    rby * (numBlocks / 2) + rbx) ⟨[], []⟩
  ((block.rbMin.getD slot 0 : ℚ),
   ((block.rbMax.getD slot 0 : ℚ) - (block.rbMin.getD slot 0 : ℚ)) /
     (cMaxHeightValue8 : ℚ))

/-- The height-field data the queries read. -/
structure HFShapeData where
  offset : Vec3Q
  scaleV : Vec3Q
  sampleCount : ℕ
  blockSize : ℕ
  rangeBlocks : List RangeBlock
  g8 : ℕ → ℕ → ℕ

/-- `mMaxLevel` of the decoding context (line 836). -/
def HFShapeData.maxLevel (s : HFShapeData) : ℕ :=
  ctz (s.sampleCount / s.blockSize)

/-- `HeightFieldShape::IsNoCollision` (lines 478-484). -/
def HFShapeData.isNoCollision (s : HFShapeData) (x y : ℕ) : Bool :=
  s.g8 x y == cNoCollisionValue8

/-- `HeightFieldShape::GetPosition` (lines 463-476). -/
def HFShapeData.position (s : HFShapeData) (x y : ℕ) : Vec3Q :=
  let p := getBlockOffsetAndScale s.blockSize s.sampleCount s.rangeBlocks x y
  s.offset.add (s.scaleV.mul
    ⟨(x : ℚ), p.1 + (s.g8 x y : ℚ) * p.2, (y : ℚ)⟩)

/-- Modelled from the spec: `RayAABox4` (Geometry/RayAABox.h, not in the
snapshot) — the slab test; a zero direction component hits only when the
origin lies inside that slab; returns the entry distance clamped to 0, or
nothing on a miss (the float code returns `FLT_MAX` there, which compares
not-closer against every live fraction). -/
def rayAABoxQ (origin dir bmin bmax : Vec3Q) : Option ℚ :=
  let slab : ℚ → ℚ → ℚ → ℚ → Option (ℚ × ℚ) := fun o d mn mx =>
    if d = 0 then
      (if mn ≤ o ∧ o ≤ mx then some (-cFLT_MAX, cFLT_MAX) else none)
    else some (min ((mn - o) / d) ((mx - o) / d),
      max ((mn - o) / d) ((mx - o) / d))
  match slab origin.x dir.x bmin.x bmax.x,
      slab origin.y dir.y bmin.y bmax.y,
      slab origin.z dir.z bmin.z bmax.z with
  | some s1, some s2, some s3 =>
      let tmin := max (max s1.1 s2.1) s3.1
      let tmax := min (min s1.2 s2.2) s3.2
      if tmin ≤ tmax ∧ 0 ≤ tmax then some (max tmin 0) else none
  | _, _, _ => none

/-- Modelled from the spec: `RayTriangle` (Geometry/RayTriangle.h, not in
the snapshot) — Moeller-Trumbore, both facings, returning the fraction or
nothing on a miss (`FLT_MAX` in the float code). -/
def rayTriangleQ (origin dir v0 v1 v2 : Vec3Q) : Option ℚ :=
  let e1 := v1.sub v0
  let e2 := v2.sub v0
  let p := dir.cross e2
  let det := e1.dot p
  if det = 0 then none
  else
    let tv := origin.sub v0
    let u := tv.dot p / det
    let q := tv.cross e1
    let v := dir.dot q / det
    let f := e2.dot q / det
    if u < 0 ∨ v < 0 ∨ u + v > 1 ∨ f < 0 then none else some f

/-- The single-hit ray-cast visitor's state: `ioHit.mFraction`, the
sub-shape coordinates of the best hit, and `mReturnValue`. -/
structure HitState where
  fraction : ℚ
  subShape : Option (ℕ × ℕ × ℕ)
  returnValue : Bool
deriving DecidableEq

/-- `Visitor::VisitTriangle` of the single-hit `CastRay`
(HeightFieldShape.cpp lines 1058-1076): keep a strictly closer hit. -/
def visitTriangle (origin dir : Vec3Q) (x y t : ℕ) (v0 v1 v2 : Vec3Q)
    (st : HitState) : HitState :=
  match rayTriangleQ origin dir v0 v1 v2 with
  | none => st
  | some f => if f < st.fraction then ⟨f, some (x, y, t), true⟩ else st

/-- One quad of the leaf-block triangle loop (lines 886-932): skip when a
diagonal vertex has no collision, then visit triangle 0
(`v0, v[num_x], v[num_x+1]`) and triangle 1 (`v0, v[num_x+1], v[1]`),
each guarded by its third vertex's collision flag. -/
def visitQuad (s : HFShapeData) (origin dir : Vec3Q) (vx vy : ℕ)
    (st : HitState) : HitState :=
  if s.isNoCollision vx vy || s.isNoCollision (vx + 1) (vy + 1) then st
  else
    let v00 := s.position vx vy
    let v01 := s.position vx (vy + 1)
    let v11 := s.position (vx + 1) (vy + 1)
    let v10 := s.position (vx + 1) vy
    let st1 := if s.isNoCollision vx (vy + 1) then st
      else visitTriangle origin dir vx vy 0 v00 v01 v11 st
    if s.isNoCollision (vx + 1) vy then st1
    else visitTriangle origin dir vx vy 1 v00 v11 v10 st1

/-- The leaf-block visit (lines 864-933): decompress the up-to
`(B+1) x (B+1)` vertex patch and walk its quads row-major. -/
def visitLeafBlock (s : HFShapeData) (origin dir : Vec3Q) (x y : ℕ)
    (st : HitState) : HitState :=
  let minX := x * s.blockSize
  let maxX := min (minX + s.blockSize + 1) s.sampleCount
  let minY := y * s.blockSize
  let maxY := min (minY + s.blockSize + 1) s.sampleCount
  (List.range (maxY - 1 - minY)).foldl (fun st dy =>
    (List.range (maxX - 1 - minX)).foldl (fun st dx =>
      visitQuad s origin dir (minX + dx) (minY + dy) st) st) st

/-- The four children of an internal node with their ray-box entry
distances and child grid coordinates (lines 936-957): the stored range
block supplies the Y extents, the level's cell size the X/Z extents,
clamped to `sampleCount - 1`. -/
def childEntries (s : HFShapeData) (origin dir : Vec3Q) (level x y : ℕ) :
    List (Option ℚ × ℕ × ℕ) :=
  let rb := s.rangeBlocks.getD
    (sGridOffsets.getD level 0 + (1 <<< level) * y + x) ⟨[], []⟩
  let ics : ℕ := s.blockSize * 2 ^ (s.maxLevel - level - 1)
  let n1 : ℕ := s.sampleCount - 1
  (List.range 4).map fun i =>
    let dx := [0, 1, 0, 1].getD i 0
    let dy := [0, 0, 1, 1].getD i 0
    let cx := 2 * x + dx
    let cy := 2 * y + dy
    let bmin : Vec3Q := ⟨s.offset.x + s.scaleV.x * ((ics * cx : ℕ) : ℚ),
      s.offset.y + s.scaleV.y * ((rb.rbMin.getD i 0 : ℕ) : ℚ),
      s.offset.z + s.scaleV.z * ((ics * cy : ℕ) : ℚ)⟩
    let bmax : Vec3Q := ⟨s.offset.x + s.scaleV.x * ((min (ics * (cx + 1)) n1 : ℕ) : ℚ),
      s.offset.y + s.scaleV.y * ((rb.rbMax.getD i 0 : ℕ) : ℚ),
      s.offset.z + s.scaleV.z * ((min (ics * (cy + 1)) n1 : ℕ) : ℚ)⟩
    (rayAABoxQ origin dir bmin bmax, cx, cy)

/-- `ShouldVisitRangeBlock` / the push test of `VisitRangeBlock`
(lines 1033-1056): a child survives only while its entry distance is
strictly below the current best fraction; a missed box (`FLT_MAX`) never
does. -/
def optDistLt (d : Option ℚ) (f : ℚ) : Bool :=
  match d with
  | none => false
  | some q => decide (q < f)

/-- The ordering `VisitRangeBlock` establishes (closest child explored
first; misses last). -/
def optDistLe (a b : Option ℚ) : Bool :=
  match a, b with
  | none, none => true
  | none, some _ => false
  | some _, none => true
  | some p, some q => decide (p ≤ q)

/-- `DecodingContext::WalkHeightField` for the single-hit ray-cast visitor
(lines 854-988), as the equivalent depth-first recursion: a leaf node runs
the triangle loop; an internal node computes its four children's entry
distances, keeps those currently closer than the best fraction, and visits
them closest-first, re-checking the stored distance against the (possibly
improved) fraction before each visit and honouring `ShouldAbort`
(`mHit.mFraction <= 0`).  `fuel` only bounds the recursion; levels grow
toward `maxLevel`, so `maxLevel + 1` is always enough. -/
def walkNode (s : HFShapeData) (origin dir : Vec3Q) :
    ℕ → ℕ → ℕ → ℕ → HitState → HitState
  | fuel, level, x, y, st =>
    if s.maxLevel ≤ level then visitLeafBlock s origin dir x y st
    else
      match fuel with
      | 0 => st
      | fuel + 1 =>
          let sorted := List.insertionSort
            (fun c1 c2 : Option ℚ × ℕ × ℕ => optDistLe c1.1 c2.1 = true)
            ((childEntries s origin dir level x y).filter
              fun c => optDistLt c.1 st.fraction)
          sorted.foldl (fun st c =>
            if st.fraction ≤ 0 then st
            else if optDistLt c.1 st.fraction then
              walkNode s origin dir fuel (level + 1) c.2.1 c.2.2 st
            else st) st

/-- `HeightFieldShape::CastRay`, single-hit variant (lines 1017-1098),
started on a default `RayCastResult` (fraction `1 + FLT_EPSILON`). -/
def hfCastRay (s : HFShapeData) (origin dir : Vec3Q) : HitState :=
  walkNode s origin dir (s.maxLevel + 1) 0 0 0
    ⟨defaultRayFraction, none, false⟩

/-- The 16 float heights of the scenario: a flat field at height 0. -/
def hf9HeightsF : List ℚ := List.replicate 16 0

/-- The scenario's quantized 16-bit grid. -/
def hf9g16 : ℕ → ℕ → ℕ := fun x y => quantize16 hf9HeightsF 4 x y

/-- The scenario's stored 8-bit samples. -/
def hf9g8 : ℕ → ℕ → ℕ := fun x y => heightSample8 2 2 hf9g16 x y

/-- The scenario's stored range blocks (one level). -/
def hf9RangeBlocks : List RangeBlock := hfRangeBlocks 2 2 1 hf9g16

/-- The constructed flat 4x4 shape with offset 0 and scale (1,1,1). -/
def hf9Shape : HFShapeData :=
  ⟨adjustOffsetY ⟨0, 0, 0⟩ hf9HeightsF, adjustScaleY ⟨1, 1, 1⟩ hf9HeightsF,
   4, 2, hf9RangeBlocks, hf9g8⟩

set_option maxRecDepth 100000 in
/-- **C9.** The flat 4x4 height field with all samples 0, offset 0 and
scale (1,1,1) passes construction validation, its decompressed surface is
everywhere at height 0, and casting the ray from (1,5,1) with direction
(0,-10,0) against it reports a hit (in quad (0,0), triangle 0) at fraction
exactly 1/2, whose hit point lies at local height 0. -/
theorem hf_flat_field_ray_scenario :
    heightFieldValidate 2 4 0 [] = none ∧
    ((List.range 4).all fun x => (List.range 4).all fun y =>
      (hf9Shape.position x y).y == 0) = true ∧
    (hfCastRay hf9Shape ⟨1, 5, 1⟩ ⟨0, -10, 0⟩).returnValue = true ∧
    (hfCastRay hf9Shape ⟨1, 5, 1⟩ ⟨0, -10, 0⟩).fraction = 1 / 2 ∧
    (hfCastRay hf9Shape ⟨1, 5, 1⟩ ⟨0, -10, 0⟩).subShape = some (0, 0, 0) ∧
    (5 : ℚ) + (hfCastRay hf9Shape ⟨1, 5, 1⟩ ⟨0, -10, 0⟩).fraction * (-10) = 0 := by
  with_unfolding_all decide

end Jolt
